import Mathlib

/-!
# Verification of the document-to-fragment extraction and incremental indexing pipeline

This file gives a shallow embedding, in Lean 4, of the parts of the repository
that the frozen claims are about, and settles each claim as a theorem.

The embedding covers:
* `excel_clau.py` — `_extract_table_to_markdown`, `_convert_chart_to_markdown`
  (category branch), `_extract_chart_values`, `_extract_chart_categories`,
  `_parse_formula_reference`;
* `new_excl.py` — `_detect_table_regions`, `_extract_values_from_range`;
* `excel_parser.py` / `excel_parse_og.py` — the merged-range fill of
  `_sheet_to_dataframe`;
* `new_working.py` — `_get_file_hash_from_store` and the classification
  step of `_build_tasks`;
* `new_test_1107.py` / `new_storing.py` — `_build_tasks`, `_delete_document`,
  `_save_document`, `update_index`;
* `no_reupload.py` — `_build_tasks`, `_prepare_nodes`, `update_index`.

Python cell values are modelled by an inductive `Value` (string or integer);
a sheet is a function from 1-based (row, column) coordinates to `Option Value`
(`none` is an empty/null cell).  Fallible operations (store lookups, store
adds) are modelled with `Except` / boolean failure oracles; Python's
`try/except` blocks become the corresponding case splits.  Thread pools are
modelled by a sequential fold over the task list: the claims under proof only
concern per-task behaviour and aggregate counts, which do not depend on the
interleaving.
-/

/-- A spreadsheet cell value: Python's strings or numbers
(numbers restricted to integers; `str()` of an integer agrees with
`toString`). -/
inductive Value where
  | str (s : String)
  | num (n : Int)
deriving DecidableEq, Repr

/-- Python `str(value)`. -/
def Value.toStr : Value → String
  | .str s => s
  | .num n => toString n

/-- A worksheet: a sparse grid of cells addressed by 1-based
(row, column); `none` is an empty cell (Python `None`). -/
def Sheet : Type := Nat → Nat → Option Value

namespace Pystr

/-!  Character-level implementations of the Python string operations the
source uses (`split`, `replace`, `strip`, `startswith`, `in`).  They are
written over `List Char` so that every definition reduces inside the
kernel. -/

/-- Python `s.split(c)` for a one-character separator. -/
def splitChar (c : Char) : List Char → List (List Char)
  | [] => [[]]
  | ch :: rest =>
    let r := splitChar c rest
    if ch = c then [] :: r
    else
      match r with
      | h :: t => (ch :: h) :: t
      | [] => [[ch]]

/-- Python `s.split(c)` on strings. -/
def pySplit (c : Char) (s : String) : List String :=
  (splitChar c s.toList).map String.mk

/-- Python `s.replace(c, "")`: remove every occurrence of a character. -/
def pyRemoveChar (c : Char) (s : String) : String :=
  String.mk (s.toList.filter (· ≠ c))

/-- Python `s.replace(c, r)` for one-character pattern and replacement. -/
def pyReplaceChar (c r : Char) (s : String) : String :=
  String.mk (s.toList.map fun ch => if ch = c then r else ch)

/-- Python `s.replace("|", "\\|")`: escape pipes for markdown. -/
def pyEscapePipes (s : String) : String :=
  String.mk (s.toList.flatMap fun ch => if ch = '|' then ['\\', '|'] else [ch])

/-- Python `s.strip()`: drop leading and trailing whitespace. -/
def pyStrip (s : String) : String :=
  String.mk
    (((s.toList.dropWhile Char.isWhitespace).reverse.dropWhile
      Char.isWhitespace).reverse)

/-- Python `s.startswith(p)`. -/
def pyStartsWith (p s : String) : Bool :=
  p.toList.isPrefixOf s.toList

/-- Python `c in s` for a single character. -/
def containsChar (c : Char) (s : String) : Bool :=
  s.toList.contains c

end Pystr

namespace ExcelClau

/-! ## `excel_clau.py` -/

/-- `column_index_from_string`: base-26 value of a column-letter string
(`openpyxl.utils`), e.g. `A ↦ 1`, `AB ↦ 28`. -/
def colOfLetters (letters : List Char) : Nat :=
  letters.foldl (fun acc ch => acc * 26 + (ch.toUpper.toNat - 'A'.toNat + 1)) 0

/-- Digits string to a natural number. -/
def natOfDigits (digits : List Char) : Nat :=
  digits.foldl (fun acc ch => acc * 10 + (ch.toNat - '0'.toNat)) 0

/-- `openpyxl.utils.coordinate_to_tuple` (after `$` stripping): parse a cell
coordinate such as `"B12"` into `(row, column)`.  The coordinate must be one
to three letters followed by at least one digit; anything else raises in
openpyxl, modelled as `none`. -/
def coordinateToTuple (s : String) : Option (Nat × Nat) :=
  let cs := s.toList
  let letters := cs.takeWhile Char.isAlpha
  let rest := cs.dropWhile Char.isAlpha
  if letters ≠ [] ∧ letters.length ≤ 3 ∧ rest ≠ [] ∧ rest.all Char.isDigit then
    some (natOfDigits rest, colOfLetters letters)
  else
    none

/-- The nested read loop of `_parse_formula_reference` (lines 445-449):
row-major scan of the rectangle, appending only non-null cell values. -/
def readRange (ws : Sheet) (sr sc er ec : Nat) : List Value :=
  (List.range' sr (er + 1 - sr)).flatMap fun r =>
    (List.range' sc (ec + 1 - sc)).filterMap fun c => ws r c

/-- `_parse_formula_reference(formula, worksheet)` (`excel_clau.py`
lines 416-461): strip a sheet-qualifier prefix (`split('!')[-1]`), strip `$`,
then either split a `:` range into two coordinates and read the rectangle
row-major (skipping null cells), or read a single cell.  Parse failures and
out-of-grid rows/columns raise inside the `try` before anything is appended,
so they yield the empty list. -/
def parseFormulaReference (formula : String) (ws : Sheet) : List Value :=
  if formula = "" then []
  else
    let f1 := if Pystr.containsChar '!' formula then
                (Pystr.pySplit '!' formula).getLastD formula
              else formula
    let f2 := Pystr.pyRemoveChar '$' f1
    if Pystr.containsChar ':' f2 then
      match Pystr.pySplit ':' f2 with
      | [a, b] =>
        match coordinateToTuple a, coordinateToTuple b with
        | some (sr, sc), some (er, ec) =>
          if sr = 0 ∨ sc = 0 then [] else readRange ws sr sc er ec
        | _, _ => []
      | _ => []
    else
      match coordinateToTuple f2 with
      | some (r, c) =>
        if r = 0 ∨ c = 0 then []
        else
          match ws r c with
          | some v => [v]
          | none => []
      | none => []

/-- A numeric chart reference (`openpyxl` `NumRef`): an optional cache of
literal points and an optional formula string. -/
structure NumRef where
  numCache : Option (List Value)
  f : Option String
deriving DecidableEq, Repr

/-- A string chart reference (`openpyxl` `StrRef`). -/
structure StrRef where
  strCache : Option (List Value)
  f : Option String
deriving DecidableEq, Repr

/-- `series.val`: holder of the numeric reference of a series' values. -/
structure ValSource where
  numRef : Option NumRef
deriving DecidableEq, Repr

/-- `series.cat`: categories may come as a string or a numeric reference. -/
structure CatSource where
  strRef : Option StrRef
  numRef : Option NumRef
deriving DecidableEq, Repr

/-- `_extract_chart_values(series, worksheet)` (`excel_clau.py` lines
330-351): cached points first (used only when the point list is non-empty),
then the formula reference, else the empty list. -/
def extractChartValues (ws : Sheet) (val : Option ValSource) : List Value :=
  match val with
  | none => []
  | some v =>
    match v.numRef with
    | none => []
    | some nr =>
      match nr.numCache with
      | some pts =>
        if pts ≠ [] then pts
        else
          match nr.f with
          | some s => if s ≠ "" then parseFormulaReference s ws else []
          | none => []
      | none =>
        match nr.f with
        | some s => if s ≠ "" then parseFormulaReference s ws else []
        | none => []

/-- `_extract_chart_categories(series, worksheet)` (`excel_clau.py` lines
298-328): string cache, then numeric cache, then the formula taken from the
string reference if one is attached (even if its formula is null), otherwise
from the numeric reference. -/
def extractChartCategories (ws : Sheet) (cat : Option CatSource) : List Value :=
  match cat with
  | none => []
  | some c =>
    match c.strRef.bind StrRef.strCache with
    | some pts =>
      if pts ≠ [] then pts else extractChartCategoriesFormula ws c
    | none =>
      match c.numRef.bind NumRef.numCache with
      | some pts =>
        if pts ≠ [] then pts else extractChartCategoriesFormula ws c
      | none => extractChartCategoriesFormula ws c
where
  /-- The formula-fallback tail of `_extract_chart_categories`
  (lines 316-323). -/
  extractChartCategoriesFormula (ws : Sheet) (c : CatSource) : List Value :=
    let formula : Option String :=
      match c.strRef with
      | some sr => sr.f
      | none =>
        match c.numRef with
        | some nr => nr.f
        | none => none
    match formula with
    | some s => if s ≠ "" then parseFormulaReference s ws else []
    | none => []

/-- The maximum length of the non-empty per-series value lists:
Python `max([len(v) for v in all_series_values if v], default=0)`
(`excel_clau.py` line 246). -/
def maxNonEmptyLen (allVals : List (List Value)) : Nat :=
  ((allVals.filter (· ≠ [])).map List.length).foldr Nat.max 0

/-- `max_len` of the category-chart branch (`excel_clau.py` line 246):
the category count when categories are non-empty, otherwise the largest
non-empty series length. -/
def catChartMaxLen (categories : List Value) (allVals : List (List Value)) :
    Nat :=
  if categories ≠ [] then categories.length else maxNonEmptyLen allVals

/-- The category list actually used to label rows
(`excel_clau.py` lines 252-256): fully synthesized `"Row {i+1}"` labels when
empty, otherwise extended with `"Row {i+1}"` up to `maxLen`. -/
def chartRowCategories (categories : List Value) (maxLen : Nat) : List Value :=
  if categories = [] then
    (List.range maxLen).map fun i => Value.str ("Row " ++ toString (i + 1))
  else
    categories ++
      ((List.range' categories.length (maxLen - categories.length)).map
        fun j => Value.str ("Row " ++ toString (j + 1)))

/-- The data rows of the category-chart table (`excel_clau.py` lines
258-266): one row per index below `maxLen`; the first cell is the category
label (empty when out of range), then one cell per series, empty when the
series has no value at that index. -/
def categoryChartDataRows (categories : List Value)
    (allVals : List (List Value)) (maxLen : Nat) : List (List String) :=
  let cats := chartRowCategories categories maxLen
  (List.range maxLen).map fun idx =>
    (if idx < cats.length then (cats.getD idx (Value.str "")).toStr else "") ::
      allVals.map fun vs =>
        if vs ≠ [] ∧ idx < vs.length then (vs.getD idx (Value.str "")).toStr
        else ""

/-- The category-based branch of `_convert_chart_to_markdown`
(`excel_clau.py` lines 230-266): header `["Category"] + seriesNames`,
separator omitted from this model, then the data rows.  Returns `none` when
`max_len = 0` (the code emits a "no data" notice instead of a table). -/
def categoryChartTable (seriesNames : List String) (categories : List Value)
    (allVals : List (List Value)) : Option (List (List String)) :=
  if catChartMaxLen categories allVals = 0 then none
  else some (("Category" :: seriesNames) ::
    categoryChartDataRows categories allVals (catChartMaxLen categories allVals))

/-- Cell stringification of `_extract_table_to_markdown` (line 86-88):
null becomes `""`, then `str(value).strip().replace("\n", " ")` with pipes
escaped. -/
def cellToStr (v : Option Value) : String :=
  Pystr.pyEscapePipes (Pystr.pyReplaceChar '\n' ' '
    (Pystr.pyStrip (match v with
                    | some x => x.toStr
                    | none => "")))

/-- The `rows_data` stage of `_extract_table_to_markdown` (lines 80-93):
stringify every cell of the region and drop fully empty rows. -/
def extractRowsData (ws : Sheet) (sr sc er ec : Nat) : List (List String) :=
  ((List.range' sr (er + 1 - sr)).map fun r =>
    (List.range' sc (ec + 1 - sc)).map fun c => cellToStr (ws r c)).filter
    fun row => row.any (· ≠ "")

/-- Whether some data row below the header has a non-empty value in column
`idx` (`excel_clau.py` line 109). -/
def dataBelow (rowsData : List (List String)) (idx : Nat) : Bool :=
  (rowsData.drop 1).any fun row => decide (idx < row.length) && (row.getD idx "" != "")

/-- The column-keep rule of `_extract_table_to_markdown` (lines 103-111):
keep a column when its header is non-empty and does not start with
`"Unnamed"`, or else when some data row below is non-empty there. -/
def keepColumn (rowsData : List (List String)) (idx : Nat) : Bool :=
  let h := (rowsData.headD []).getD idx ""
  if h != "" && !(Pystr.pyStartsWith "Unnamed" h) then true
  else dataBelow rowsData idx

/-- `valid_col_indices` (lines 100-111). -/
def validColIndices (rowsData : List (List String)) : List Nat :=
  (List.range (rowsData.headD []).length).filter (keepColumn rowsData)

/-- `filtered_headers` (lines 101-111): the synthesized header names.
Computed by the source but never used in the rendered output (line 128 uses
`filtered_rows[0]` instead). -/
def filteredHeaders (rowsData : List (List String)) : List String :=
  (validColIndices rowsData).map fun idx =>
    let h := (rowsData.headD []).getD idx ""
    if h != "" && !(Pystr.pyStartsWith "Unnamed" h) then h
    else if h != "" then h else "Column " ++ toString (idx + 1)

/-- `filtered_rows` (lines 118-123): every surviving row projected to the
kept columns, dropping rows that become fully empty. -/
def filteredRows (rowsData : List (List String)) : List (List String) :=
  (rowsData.map fun row =>
    (validColIndices rowsData).map fun idx => row.getD idx "").filter
    fun r => r.any (· ≠ "")

/-- Markdown assembly of `_extract_table_to_markdown` (lines 126-134):
first filtered row as header, a `---` separator, then the remaining rows. -/
def mdOfFilteredRows (fr : List (List String)) : String :=
  match fr with
  | [] => ""
  | h :: rest =>
    "| " ++ String.intercalate " | " h ++ " |\n" ++
    "| " ++ String.intercalate " | " (List.replicate h.length "---") ++ " |\n" ++
    String.join (rest.map fun r => "| " ++ String.intercalate " | " r ++ " |\n") ++
    "\n"

/-- `_extract_table_to_markdown(worksheet, ...)` (`excel_clau.py` lines
69-136), as a function of the worksheet and the region bounds. -/
def extractTableToMarkdown (ws : Sheet) (sr sc er ec : Nat) : String :=
  let rowsData := extractRowsData ws sr sc er ec
  if rowsData = [] then ""
  else if validColIndices rowsData = [] then ""
  else mdOfFilteredRows (filteredRows rowsData)

end ExcelClau

namespace NewExcl

/-! ## `new_excl.py` -/

/-- The per-row blankness test of `_detect_table_regions` (`new_excl.py`
lines 371-378): a row inside the range is blank when every cell in
`[minCol, maxCol]` is null or stringifies to whitespace; the sentinel row
`maxRow + 1` counts as blank. -/
def cellNonBlank (v : Option Value) : Bool :=
  match v with
  | none => false
  | some x => Pystr.pyStrip x.toStr ≠ ""

/-- Whether row `r` of the used column span is blank. -/
def rowBlank (ws : Sheet) (minCol maxCol r : Nat) : Bool :=
  !(List.range' minCol (maxCol + 1 - minCol)).any fun c => cellNonBlank (ws r c)

/-- The scan loop of `_detect_table_regions` (lines 370-387): walk the given
row indices keeping an open-region marker; a non-blank row opens a region,
a blank row closes the open region `[start, row - 1]`. -/
def regionScan (blank : Nat → Bool) : List Nat → Option Nat → List (Nat × Nat)
  | [], _ => []
  | r :: rest, none =>
    if !blank r then regionScan blank rest (some r)
    else regionScan blank rest none
  | r :: rest, some s =>
    if !blank r then regionScan blank rest (some s)
    else (s, r - 1) :: regionScan blank rest none

/-- `_detect_table_regions(sheet, min_row, max_row, min_col, max_col)`
(`new_excl.py` lines 352-392): scan rows `minRow .. maxRow + 1` (the last is
the always-blank sentinel of `range(min_row, max_row + 2)`), close regions on
non-blank→blank transitions, attach the full used column span to every
region, and keep the source's (vacuous) small-region filter
`r[1] - r[0] >= 0`. -/
def detectTableRegions (ws : Sheet) (minRow maxRow minCol maxCol : Nat) :
    List (Nat × Nat × Nat × Nat) :=
  let blank := fun r => if r ≤ maxRow then rowBlank ws minCol maxCol r else true
  ((regionScan blank (List.range' minRow (maxRow + 2 - minRow)) none).map
    fun p => (p.1, p.2, minCol, maxCol)).filter
    fun r => decide ((0 : Int) ≤ (r.2.1 : Int) - (r.1 : Int))

/-- The range-read loop of `_extract_values_from_range` (`new_excl.py` lines
601-606): identical row-major, null-skipping read as
`ExcelClau.readRange`. -/
def extractValuesFromRangeLoop (ws : Sheet) (sr sc er ec : Nat) : List Value :=
  (List.range' sr (er + 1 - sr)).flatMap fun r =>
    (List.range' sc (ec + 1 - sc)).filterMap fun c => ws r c

end NewExcl

namespace ExcelParser

/-! ## `excel_parser.py` / `excel_parse_og.py` -/

/-- A merged cell range, with the field order used by the source
(`merged_range.min_col / min_row / max_col / max_row`). -/
structure MergedRange where
  minRow : Nat
  minCol : Nat
  maxRow : Nat
  maxCol : Nat
deriving DecidableEq, Repr

/-- The in-memory matrix of `_sheet_to_dataframe`: cells addressed by
(row, column) pairs. -/
def Grid : Type := Nat × Nat → Option Value

/-- Membership of a cell in a merged range. -/
def MergedRange.contains (rg : MergedRange) (p : Nat × Nat) : Prop :=
  rg.minRow ≤ p.1 ∧ p.1 ≤ rg.maxRow ∧ rg.minCol ≤ p.2 ∧ p.2 ≤ rg.maxCol

instance (rg : MergedRange) (p : Nat × Nat) : Decidable (rg.contains p) := by
  unfold MergedRange.contains; infer_instance

/-- One iteration of the merged-range fill loop of `_sheet_to_dataframe`
(`excel_parser.py` lines 88-99): the top-left value is read from the original
sheet, and only cells of the range that are currently null receive it. -/
def fillMergedStep (orig : Grid) (m : Grid) (rg : MergedRange) : Grid :=
  fun p =>
    if rg.contains p ∧ m p = none then orig (rg.minRow, rg.minCol)
    else m p

/-- The whole merged-range fill: fold the step over the sheet's merged
ranges, starting from the materialized matrix (which equals the raw
sheet). -/
def fillMerged (orig : Grid) (ranges : List MergedRange) : Grid :=
  ranges.foldl (fillMergedStep orig) orig

/-- Two merged ranges are disjoint when no cell lies in both. -/
def MergedRange.Disjoint (a b : MergedRange) : Prop :=
  ∀ p : Nat × Nat, ¬(a.contains p ∧ b.contains p)

end ExcelParser

namespace NewWorking

/-! ## `new_working.py` -/

/-- Metadata of a node returned by the retriever: `file_path` and
`file_hash` are `meta.get(...)` results, so either may be absent. -/
structure StoreNode where
  path : Option String
  hash : Option String
deriving DecidableEq, Repr

/-- The match loop of `_get_file_hash_from_store` (`new_working.py` lines
14-23): the first retrieved node whose `file_path` equals the document name
and whose `file_hash` is truthy (present and non-empty) yields that hash;
otherwise the scan continues, and `none` is returned at the end. -/
def lookupHash (docName : String) : List StoreNode → Option String
  | [] => none
  | n :: rest =>
    if n.path = some docName then
      match n.hash with
      | some h => if h ≠ "" then some h else lookupHash docName rest
      | none => lookupHash docName rest
    else lookupHash docName rest

/-- `_get_file_hash_from_store(self, doc_name)` (`new_working.py` lines
4-27): the retriever call may raise (`Except.error`), in which case the
`except` branch logs and returns `None`; on success the retrieved nodes are
scanned with `lookupHash`. -/
def getFileHashFromStore (docName : String)
    (retrieved : Except String (List StoreNode)) : Option String :=
  match retrieved with
  | .error _ => none
  | .ok nodes => lookupHash docName nodes

/-- The action recorded in a task by `_build_tasks`. -/
inductive TaskAction where
  | new
  | overwrite
deriving DecidableEq, Repr

/-- The classification step of `_build_tasks` (`new_working.py` lines
54-61): falsy existing hash (absent or empty) makes the document new, a
differing hash makes it an overwrite, an equal hash skips it (no task). -/
def buildTaskAction (existingHash : Option String) (incomingHash : String) :
    Option TaskAction :=
  match existingHash with
  | none => some .new
  | some h =>
    if h = "" then some .new
    else if h ≠ incomingHash then some .overwrite
    else none

end NewWorking

namespace NewTest1107

/-! ## `new_test_1107.py` (and the identically-shaped `new_storing.py`) -/

/-- A node stored in a vector or summary store: its `file_name` metadata and
its (optional) `file_hash` metadata. -/
structure StoreNode where
  name : String
  hash : Option String
deriving DecidableEq, Repr

/-- A grouped input document: SharePoint path, file name, and the content
hash computed by `prepare_documents`. -/
structure Doc where
  path : String
  name : String
  hash : String
deriving DecidableEq, Repr

/-- `_get_file_hash_from_store(file_name)` (`new_test_1107.py` lines 77-92):
scan the retrieved nodes and return the `file_hash` metadata of the first
node whose `file_name` matches (even when that hash is absent). -/
def getFileHashFromStore (fileName : String) : List StoreNode → Option String
  | [] => none
  | n :: rest =>
    if n.name = fileName then n.hash else getFileHashFromStore fileName rest

/-- Task actions of `_build_tasks` (`"new"` / `"overwrite"`); an unchanged
document produces no task. -/
inductive Action where
  | new
  | overwrite
deriving DecidableEq, Repr

/-- The decision of `_build_tasks` (`new_test_1107.py` lines 109-114):
falsy cached hash → new, differing → overwrite, equal → skipped. -/
def classify (cached : Option String) (incoming : String) : Option Action :=
  match cached with
  | none => some .new
  | some h =>
    if h = "" then some .new
    else if h ≠ incoming then some .overwrite
    else none

/-- Association-list lookup standing for `dict.get`. -/
def assocGet (cache : List (String × Option String)) (k : String) :
    Option (Option String) :=
  match cache with
  | [] => none
  | (k', v) :: rest => if k' = k then some v else assocGet rest k

/-- `_build_tasks(documents)` (`new_test_1107.py` lines 97-116) with the
hash-memoization cache threaded explicitly: a cache miss (absent entry or a
cached `None`) triggers a store lookup whose result is cached; the document
is then classified and either appended as a task or skipped. -/
def buildTasks (vstore : List StoreNode) :
    List Doc → List (String × Option String) →
    List (Doc × Action) × List (String × Option String)
  | [], cache => ([], cache)
  | d :: rest, cache =>
    let looked :=
      match assocGet cache d.name with
      | some (some h) => (some h, cache)
      | _ =>
        (getFileHashFromStore d.name vstore,
         (d.name, getFileHashFromStore d.name vstore) :: cache)
    let tail := buildTasks vstore rest looked.2
    match classify looked.1 d.hash with
    | some a => ((d, a) :: tail.1, tail.2)
    | none => tail

/-- Store operations issued by `update_index`: one `delete` per matching
node, one `add` per `store.add` call, each tagged with the document's
file name. -/
inductive Op where
  | del (file : String)
  | add (file : String)
deriving DecidableEq, Repr

/-- The file name an operation is about. -/
def Op.file : Op → String
  | .del f => f
  | .add f => f

/-- Whether an operation is a delete. -/
def Op.isDel : Op → Bool
  | .del _ => true
  | .add _ => false

/-- The two stores of `IndexManager`. -/
structure Stores where
  vstore : List StoreNode
  sstore : List StoreNode
deriving DecidableEq, Repr

/-- `_delete_document(file_name)` (`new_test_1107.py` lines 121-142): issue
one `store.delete(node_id)` per node of each store whose `file_name`
matches, removing those nodes. -/
def deleteDocument (st : Stores) (fileName : String) : Stores × List Op :=
  (⟨st.vstore.filter (fun n => n.name ≠ fileName),
    st.sstore.filter (fun n => n.name ≠ fileName)⟩,
   (st.vstore.filter (fun n => n.name = fileName)).map (fun _ => Op.del fileName) ++
   (st.sstore.filter (fun n => n.name = fileName)).map (fun _ => Op.del fileName))

/-- `_save_document(file_path, docs, file_name)` (`new_test_1107.py` lines
147-173): one `vector_store.add` call and one `summary_store.add` call; the
added nodes carry the document's file name and inherit its hash. -/
def saveDocument (st : Stores) (d : Doc) : Stores × List Op :=
  (⟨st.vstore ++ [⟨d.name, some d.hash⟩], st.sstore ++ [⟨d.name, some d.hash⟩]⟩,
   [Op.add d.name, Op.add d.name])

/-- One iteration of the `update_index` loop (`new_test_1107.py` lines
182-187): delete first when the action is `"overwrite"`, then save for both
`"new"` and `"overwrite"`. -/
def processTask (st : Stores) (t : Doc × Action) : Stores × List Op :=
  let step1 :=
    if t.2 = .overwrite then deleteDocument st t.1.name else (st, [])
  let step2 := saveDocument step1.1 t.1
  (step2.1, step1.2 ++ step2.2)

/-- The task loop of `update_index` (`new_test_1107.py` lines 178-189),
returning the final stores and the per-task operation traces in order. -/
def updateIndex (st : Stores) :
    List (Doc × Action) → Stores × List ((Doc × Action) × List Op)
  | [] => (st, [])
  | t :: rest =>
    let stepped := processTask st t
    let tail := updateIndex stepped.1 rest
    (tail.1, (t, stepped.2) :: tail.2)

end NewTest1107

namespace NoReupload

/-! ## `no_reupload.py` -/

/-- A grouped input document: its name (the dictionary key of `documents`)
and its metadata `file_hash`. -/
structure Doc where
  name : String
  hash : String
deriving DecidableEq, Repr

/-- A task prepared by `_build_tasks`: document name, incoming hash, and the
action string (`"new"` or `"modified"`). -/
structure Task where
  name : String
  hash : String
  action : String
deriving DecidableEq, Repr

/-- `dict.get` on the hash-memoization cache (latest assignment wins). -/
def cacheGet : List (String × String) → String → Option String
  | [], _ => none
  | (k, v) :: rest, k' => if k = k' then some v else cacheGet rest k'

/-- `_build_tasks(documents)` (`no_reupload.py` lines 1-31): per document,
a cache miss yields a `"new"` task, a differing cached hash a `"modified"`
task, and an equal hash no task at all.  This variant consults only the
in-memory cache, never the store. -/
def buildTasks (cache : List (String × String)) : List Doc → List Task
  | [] => []
  | d :: rest =>
    match cacheGet cache d.name with
    | none => ⟨d.name, d.hash, "new"⟩ :: buildTasks cache rest
    | some h =>
      if h ≠ d.hash then ⟨d.name, d.hash, "modified"⟩ :: buildTasks cache rest
      else buildTasks cache rest

/-- Store operations of a run: one `add` call per store. -/
inductive ROp where
  | addVec (name : String)
  | addSum (name : String)
deriving DecidableEq, Repr

/-- The mutable state of the index manager: the hash-memoization cache and
the contents of the two stores (nodes tagged name × hash). -/
structure State where
  cache : List (String × String)
  vstore : List (String × String)
  sstore : List (String × String)
deriving DecidableEq, Repr

/-- A per-task outcome tuple `(doc_name, nodes, err)` of `_prepare_nodes`,
keeping the name and the error slot (`none` on success). -/
structure TaskResult where
  name : String
  err : Option String
deriving DecidableEq, Repr

/-- `_prepare_nodes(task_tuple)` (`no_reupload.py` lines 35-104) with the
store `add` calls modelled by failure oracles: any action other than
`"new"`/`"modified"` is skipped with a truthy error string; a raising
`vector_store.add` leaves all state unchanged; a raising
`summary_store.add` happens after the vector add has taken effect; on full
success the cache is updated with the document's hash and no error is
reported. -/
def prepareNodes (addFails sumFails : String → Bool) (st : State) (t : Task) :
    State × List ROp × TaskResult :=
  if t.action ≠ "new" ∧ t.action ≠ "modified" then
    (st, [], ⟨t.name, some "skipped"⟩)
  else if addFails t.name then
    (st, [], ⟨t.name, some "vector add failed"⟩)
  else
    let st1 : State := { st with vstore := st.vstore ++ [(t.name, t.hash)] }
    if sumFails t.name then
      (st1, [ROp.addVec t.name], ⟨t.name, some "summary add failed"⟩)
    else
      ({ st1 with
          sstore := st1.sstore ++ [(t.name, t.hash)],
          cache := (t.name, t.hash) :: st1.cache },
       [ROp.addVec t.name, ROp.addSum t.name],
       ⟨t.name, none⟩)

/-- The task-execution loop of `update_index` (`no_reupload.py` lines
130-140); the thread pool is modelled as a sequential fold, which preserves
the per-task outcomes and the aggregate counts the claims are about. -/
def runTasks (addFails sumFails : String → Bool) (st : State) :
    List Task → State × List ROp × List TaskResult
  | [] => (st, [], [])
  | t :: rest =>
    let stepped := prepareNodes addFails sumFails st t
    let tail := runTasks addFails sumFails stepped.1 rest
    (tail.1, stepped.2.1 ++ tail.2.1, stepped.2.2 :: tail.2.2)

/-- The outcome of one `update_index` call: final state, the store `add`
operations performed, the aggregated counts of lines 145-154, and the
returned value (`success_count`, or `0` on the early returns of lines
117-128). -/
structure RunResult where
  state : State
  ops : List ROp
  succeeded : Nat
  failed : Nat
  ret : Nat
deriving Repr

/-- `update_index(...)` (`no_reupload.py` lines 107-161): early return when
there are no documents or no tasks; otherwise run every task, then count
every result with a truthy error slot as failed and every other result as
succeeded, returning the succeeded count. -/
def updateIndex (addFails sumFails : String → Bool) (st : State)
    (docs : List Doc) : RunResult :=
  if docs = [] then ⟨st, [], 0, 0, 0⟩
  else
    let tasks := buildTasks st.cache docs
    if tasks = [] then ⟨st, [], 0, 0, 0⟩
    else
      let run := runTasks addFails sumFails st tasks
      let s := (run.2.2.filter fun r => r.err = none).length
      let f := (run.2.2.filter fun r => r.err ≠ none).length
      ⟨run.1, run.2.1, s, f, s⟩

end NoReupload

namespace Examples

/-! ## Concrete inputs used by the claim theorems and their witnesses -/

/-- A one-column sheet whose rows 1..5 are data, data, blank, blank, data
(the region-detection scenario of the specification). -/
def wsRegions : Sheet := fun r c =>
  if c = 1 && (r = 1 || r = 2 || r = 5) then some (Value.str "d") else none

/-- A one-column sheet with values in rows 1 and 3 and a null in row 2
(a range with a gap, for the null-skipping read). -/
def wsGap : Sheet := fun r c =>
  if c = 1 && (r = 1 || r = 3) then some (Value.num r) else none

/-- Column-B sheet with 10 and 20 in rows 1 and 2 (chart formula-range
fallback). -/
def wsColB : Sheet := fun r c =>
  if c = 2 && (r = 1 || r = 2) then some (Value.num (r * 10)) else none

/-- A table with header row `Name, Unnamed: 1, Age` whose second column is
blank below the header. -/
def wsUnnamedBlank : Sheet := fun r c =>
  if r = 1 && c = 1 then some (Value.str "Name")
  else if r = 1 && c = 2 then some (Value.str "Unnamed: 1")
  else if r = 1 && c = 3 then some (Value.str "Age")
  else if r = 2 && c = 1 then some (Value.str "alice")
  else if r = 2 && c = 3 then some (Value.num 30)
  else none

/-- The same table but with a non-blank data value in the second column. -/
def wsUnnamedData : Sheet := fun r c =>
  if r = 1 && c = 1 then some (Value.str "Name")
  else if r = 1 && c = 2 then some (Value.str "Unnamed: 1")
  else if r = 1 && c = 3 then some (Value.str "Age")
  else if r = 2 && c = 1 then some (Value.str "alice")
  else if r = 2 && c = 2 then some (Value.str "zz")
  else if r = 2 && c = 3 then some (Value.num 30)
  else none

/-- A 2×2 grid whose top-left cell holds `"X"` and whose other cells are
null. -/
def gridMerged : ExcelParser.Grid := fun p =>
  if p = (1, 1) then some (Value.str "X") else none

/-- The merged range covering that whole 2×2 grid. -/
def rgMerged : ExcelParser.MergedRange := ⟨1, 1, 2, 2⟩

end Examples

/-! # Helper lemmas -/

/-- `getD` of a mapped range, inside bounds. -/
theorem getD_range_map {α : Type _} (f : Nat → α) (n i : Nat) (d : α)
    (h : i < n) : ((List.range n).map f).getD i d = f i := by
  rw [List.getD_eq_getElem?_getD, List.getElem?_map, List.getElem?_range h]
  rfl

/-- `getD` of a mapped list, inside bounds. -/
theorem getD_map_lt {α β : Type _} (g : α → β) (l : List α) (i : Nat) (d : β)
    (h : i < l.length) : (l.map g).getD i d = g l[i] := by
  rw [List.getD_eq_getElem (l.map g) d (by simpa using h), List.getElem_map]

/-- `NewWorking.lookupHash` never returns the empty string: the scan only
returns a hash that passed the truthiness test. -/
theorem NewWorking.lookupHash_ne_empty (docName : String) :
    ∀ nodes : List NewWorking.StoreNode, ∀ h : String,
      NewWorking.lookupHash docName nodes = some h → h ≠ "" := by
  intro nodes
  induction nodes with
  | nil => intro h hh; simp [NewWorking.lookupHash] at hh
  | cons n rest ih =>
    intro h hh
    unfold NewWorking.lookupHash at hh
    by_cases hp : n.path = some docName
    · simp only [hp, if_pos rfl] at hh
      match hhash : n.hash with
      | some h0 =>
        rw [hhash] at hh
        by_cases h0e : h0 = ""
        · simp [h0e] at hh; exact ih h hh
        · simp [h0e] at hh; simpa [← hh] using h0e
      | none => rw [hhash] at hh; exact ih h hh
    · rw [if_neg hp] at hh; exact ih h hh

/-- Claim C1: classification of a document from its stored hash
(`new_working.py`, `_get_file_hash_from_store` lines 4-27 and `_build_tasks`
lines 54-61).  When the store lookup finds no hash the document is
classified new; when the found hash differs from the incoming hash it is
classified as an overwrite (a changed document); when they are equal no task
is created (the document is skipped as unchanged); and when the retriever
call raises, the lookup returns `none`, so the document is classified new
rather than dropped. -/
theorem claim_C1 (docName incoming : String)
    (res : Except String (List NewWorking.StoreNode)) :
    (NewWorking.getFileHashFromStore docName res = none →
      NewWorking.buildTaskAction (NewWorking.getFileHashFromStore docName res)
        incoming = some NewWorking.TaskAction.new) ∧
    (∀ h, NewWorking.getFileHashFromStore docName res = some h →
      (h ≠ incoming →
        NewWorking.buildTaskAction (NewWorking.getFileHashFromStore docName res)
          incoming = some NewWorking.TaskAction.overwrite) ∧
      (h = incoming →
        NewWorking.buildTaskAction (NewWorking.getFileHashFromStore docName res)
          incoming = none)) ∧
    (∀ e, res = Except.error e →
      NewWorking.buildTaskAction (NewWorking.getFileHashFromStore docName res)
        incoming = some NewWorking.TaskAction.new) := by
  refine ⟨fun hn => ?_, fun h hs => ?_, fun e he => ?_⟩
  · rw [hn]; rfl
  · have hne : h ≠ "" := by
      cases res with
      | error e => simp [NewWorking.getFileHashFromStore] at hs
      | ok nodes =>
        exact NewWorking.lookupHash_ne_empty docName nodes h hs
    constructor
    · intro hdiff
      rw [hs]
      simp [NewWorking.buildTaskAction, hne, hdiff]
    · intro heq
      rw [hs]
      subst heq
      simp [NewWorking.buildTaskAction, hne]
  · subst he; rfl

/-- Witness for C1 at a concrete input: a raising lookup classifies the
document as new. -/
theorem claim_C1_witness :
    NewWorking.buildTaskAction
      (NewWorking.getFileHashFromStore "doc.xlsx" (Except.error "timeout"))
      "hash1" = some NewWorking.TaskAction.new :=
  (claim_C1 "doc.xlsx" "hash1" (Except.error "timeout")).2.2 "timeout" rfl

/-- Claim C6: priority of chart-series reference resolution
(`excel_clau.py`, `_extract_chart_values` lines 330-351 and
`_parse_formula_reference` lines 416-461).  A present, non-empty
cached-points list is used verbatim; otherwise a present, non-empty formula
string is parsed and the cell values are read from the sheet; otherwise the
result is empty.  In particular an empty cached-points list with a valid
formula range resolves through the formula, not to the empty list. -/
theorem claim_C6 (ws : Sheet) (v : Option ExcelClau.ValSource) :
    (∀ nr pts, v = some ⟨some nr⟩ → nr.numCache = some pts → pts ≠ [] →
      ExcelClau.extractChartValues ws v = pts) ∧
    (∀ nr s, v = some ⟨some nr⟩ →
      (nr.numCache = none ∨ nr.numCache = some []) → nr.f = some s → s ≠ "" →
      ExcelClau.extractChartValues ws v = ExcelClau.parseFormulaReference s ws) ∧
    (∀ nr, v = some ⟨some nr⟩ →
      (nr.numCache = none ∨ nr.numCache = some []) →
      (nr.f = none ∨ nr.f = some "") →
      ExcelClau.extractChartValues ws v = []) ∧
    (v = none → ExcelClau.extractChartValues ws v = []) ∧
    (v = some ⟨none⟩ → ExcelClau.extractChartValues ws v = []) := by
  refine ⟨?_, ?_, ?_, ?_, ?_⟩
  · intro nr pts hv hc hne
    subst hv
    simp [ExcelClau.extractChartValues, hc, hne]
  · intro nr s hv hc hf hne
    subst hv
    rcases hc with hc | hc <;>
      simp [ExcelClau.extractChartValues, hc, hf, hne]
  · intro nr hv hc hf
    subst hv
    rcases hc with hc | hc <;> rcases hf with hf | hf <;>
      simp [ExcelClau.extractChartValues, hc, hf]
  · intro hv; subst hv; rfl
  · intro hv; subst hv; rfl

/-- Witness for C6: a series with an empty cached-points list and the range
`S!$B$1:$B$2` over populated cells resolves to exactly those cells' literal
values. -/
theorem claim_C6_witness :
    ExcelClau.extractChartValues Examples.wsColB
      (some ⟨some ⟨some [], some "S!$B$1:$B$2"⟩⟩)
      = [Value.num 10, Value.num 20] :=
  ((claim_C6 Examples.wsColB (some ⟨some ⟨some [], some "S!$B$1:$B$2"⟩⟩)).2.1
    ⟨some [], some "S!$B$1:$B$2"⟩ "S!$B$1:$B$2" rfl (Or.inr rfl) rfl
    (by decide)).trans (by decide)

/-- The row-major cell coordinates of a rectangle. -/
theorem readRange_eq_filterMap (ws : Sheet) (sr sc er ec : Nat) :
    ExcelClau.readRange ws sr sc er ec =
      ((List.range' sr (er + 1 - sr)).flatMap fun r =>
        (List.range' sc (ec + 1 - sc)).map fun c => (r, c)).filterMap
        fun p => ws p.1 p.2 := by
  unfold ExcelClau.readRange
  induction List.range' sr (er + 1 - sr) with
  | nil => rfl
  | cons r rest ih =>
    simp only [List.flatMap_cons, List.filterMap_append, ih,
      List.filterMap_map]
    rfl

/-- A `flatMap` of bounded-length lists is bounded. -/
theorem length_flatMap_le {α β : Type _} (g : α → List β) (l : List α)
    (k : Nat) (hg : ∀ a, (g a).length ≤ k) :
    (l.flatMap g).length ≤ l.length * k := by
  induction l with
  | nil => simp
  | cons a rest ih =>
    have hga := hg a
    simp only [List.flatMap_cons, List.length_append, List.length_cons,
      Nat.succ_mul]
    omega

/-- Claim C10: in the formula-range fallback (`excel_clau.py`
`_parse_formula_reference` lines 444-449 and `new_excl.py`
`_extract_values_from_range` lines 601-606), a rectangular range is
flattened row-major and null cells are silently skipped, so the returned
list can be shorter than the number of cells in the range; with a blank row
inside the range the values after it shift into earlier positions. -/
theorem claim_C10 (ws : Sheet) (sr sc er ec : Nat) :
    (ExcelClau.readRange ws sr sc er ec =
      ((List.range' sr (er + 1 - sr)).flatMap fun r =>
        (List.range' sc (ec + 1 - sc)).map fun c => (r, c)).filterMap
        (fun p => ws p.1 p.2)) ∧
    (ExcelClau.readRange ws sr sc er ec).length ≤
      (er + 1 - sr) * (ec + 1 - sc) ∧
    NewExcl.extractValuesFromRangeLoop ws sr sc er ec =
      ExcelClau.readRange ws sr sc er ec ∧
    ExcelClau.readRange Examples.wsGap 1 1 3 1 = [Value.num 1, Value.num 3] ∧
    (ExcelClau.readRange Examples.wsGap 1 1 3 1).length < 3 := by
  refine ⟨readRange_eq_filterMap ws sr sc er ec, ?_, rfl, by decide, by decide⟩
  unfold ExcelClau.readRange
  have h := length_flatMap_le
    (fun r => (List.range' sc (ec + 1 - sc)).filterMap fun c => ws r c)
    (List.range' sr (er + 1 - sr)) (ec + 1 - sc)
    (fun r => by
      calc ((List.range' sc (ec + 1 - sc)).filterMap fun c => ws r c).length
          ≤ (List.range' sc (ec + 1 - sc)).length :=
            List.length_filterMap_le _ _
        _ = ec + 1 - sc := List.length_range' ..)
  simpa using h

/-- The merged-range fill never changes a cell outside every range. -/
theorem ExcelParser.foldl_fill_not_mem (orig : ExcelParser.Grid) :
    ∀ (ranges : List ExcelParser.MergedRange) (m : ExcelParser.Grid)
      (p : Nat × Nat), (∀ rg ∈ ranges, ¬rg.contains p) →
      ranges.foldl (ExcelParser.fillMergedStep orig) m p = m p := by
  intro ranges
  induction ranges with
  | nil => intro m p _; rfl
  | cons rg rest ih =>
    intro m p hp
    have h1 : ExcelParser.fillMergedStep orig m rg p = m p := by
      unfold ExcelParser.fillMergedStep
      rw [if_neg]
      intro hcon
      exact hp rg (List.mem_cons_self rg rest) hcon.1
    calc (rg :: rest).foldl (ExcelParser.fillMergedStep orig) m p
        = rest.foldl (ExcelParser.fillMergedStep orig)
            (ExcelParser.fillMergedStep orig m rg) p := rfl
      _ = ExcelParser.fillMergedStep orig m rg p :=
          ih _ p (fun r hr => hp r (List.mem_cons_of_mem rg hr))
      _ = m p := h1

/-- The merged-range fill never changes a cell that currently holds a
value. -/
theorem ExcelParser.foldl_fill_nonnull (orig : ExcelParser.Grid) :
    ∀ (ranges : List ExcelParser.MergedRange) (m : ExcelParser.Grid)
      (p : Nat × Nat), m p ≠ none →
      ranges.foldl (ExcelParser.fillMergedStep orig) m p = m p := by
  intro ranges
  induction ranges with
  | nil => intro m p _; rfl
  | cons rg rest ih =>
    intro m p hp
    have h1 : ExcelParser.fillMergedStep orig m rg p = m p := by
      unfold ExcelParser.fillMergedStep
      rw [if_neg]
      intro hcon
      exact hp hcon.2
    calc (rg :: rest).foldl (ExcelParser.fillMergedStep orig) m p
        = rest.foldl (ExcelParser.fillMergedStep orig)
            (ExcelParser.fillMergedStep orig m rg) p := rfl
      _ = ExcelParser.fillMergedStep orig m rg p := by
          apply ih
          rw [h1]; exact hp
      _ = m p := h1

/-- In a pairwise-disjoint range list, a null cell of a member range
receives that range's top-left value. -/
theorem ExcelParser.foldl_fill_filled (orig : ExcelParser.Grid)
    (R : ExcelParser.MergedRange) :
    ∀ (ranges : List ExcelParser.MergedRange) (m : ExcelParser.Grid)
      (p : Nat × Nat), R ∈ ranges →
      ranges.Pairwise ExcelParser.MergedRange.Disjoint →
      R.contains p → m p = none →
      ranges.foldl (ExcelParser.fillMergedStep orig) m p =
        orig (R.minRow, R.minCol) := by
  intro ranges
  induction ranges with
  | nil => intro m p hR; cases hR
  | cons rg rest ih =>
    intro m p hR hdisj hcont hnull
    rcases List.mem_cons.1 hR with heq | hmem
    · subst heq
      have hstep : ExcelParser.fillMergedStep orig m R p =
          orig (R.minRow, R.minCol) := by
        unfold ExcelParser.fillMergedStep
        rw [if_pos ⟨hcont, hnull⟩]
      have hrest : ∀ r ∈ rest, ¬r.contains p := by
        intro r hr hcon
        exact (List.pairwise_cons.1 hdisj).1 r hr p ⟨hcont, hcon⟩
      calc (R :: rest).foldl (ExcelParser.fillMergedStep orig) m p
          = rest.foldl (ExcelParser.fillMergedStep orig)
              (ExcelParser.fillMergedStep orig m R) p := rfl
        _ = ExcelParser.fillMergedStep orig m R p :=
            ExcelParser.foldl_fill_not_mem orig rest _ p hrest
        _ = orig (R.minRow, R.minCol) := hstep
    · have hrg : ¬rg.contains p := by
        intro hcon
        exact (List.pairwise_cons.1 hdisj).1 R hmem p ⟨hcon, hcont⟩
      have hstep : ExcelParser.fillMergedStep orig m rg p = m p := by
        unfold ExcelParser.fillMergedStep
        rw [if_neg]
        intro hcon
        exact hrg hcon.1
      have := ih (ExcelParser.fillMergedStep orig m rg) p hmem
        (List.pairwise_cons.1 hdisj).2 hcont (by rw [hstep]; exact hnull)
      exact this

/-- Claim C9: merged-cell resolution (`excel_parser.py` and
`excel_parse_og.py`, the merged-range fill of `_sheet_to_dataframe`).
For pairwise-disjoint merged ranges: a null cell of a merged range reads as
the range's top-left value after resolution; a non-null cell of the range
and any cell outside every range are unaffected. -/
theorem claim_C9 (orig : ExcelParser.Grid)
    (ranges : List ExcelParser.MergedRange) (R : ExcelParser.MergedRange)
    (hR : R ∈ ranges) (hdisj : ranges.Pairwise ExcelParser.MergedRange.Disjoint) :
    (∀ p, R.contains p → orig p = none →
      ExcelParser.fillMerged orig ranges p = orig (R.minRow, R.minCol)) ∧
    (∀ p, R.contains p → orig p ≠ none →
      ExcelParser.fillMerged orig ranges p = orig p) ∧
    (∀ p, (∀ rg ∈ ranges, ¬rg.contains p) →
      ExcelParser.fillMerged orig ranges p = orig p) := by
  refine ⟨fun p hc hn => ?_, fun p _ hn => ?_, fun p hp => ?_⟩
  · exact ExcelParser.foldl_fill_filled orig R ranges orig p hR hdisj hc hn
  · exact ExcelParser.foldl_fill_nonnull orig ranges orig p hn
  · exact ExcelParser.foldl_fill_not_mem orig ranges orig p hp

/-- Witness for C9: in a 2×2 merged range with top-left `"X"`, the null
bottom-right cell resolves to `"X"`. -/
theorem claim_C9_witness :
    ExcelParser.fillMerged Examples.gridMerged [Examples.rgMerged] (2, 2) =
      some (Value.str "X") :=
  (((claim_C9 Examples.gridMerged [Examples.rgMerged] Examples.rgMerged
    (List.mem_cons_self _ _) (by simp)).1 (2, 2) (by decide) rfl).trans
    (by decide))

/-- The region scan on blank rows only produces nothing while no region is
open. -/
theorem NewExcl.regionScan_all_blank (blank : Nat → Bool) :
    ∀ rows : List Nat, (∀ r ∈ rows, blank r = true) →
      NewExcl.regionScan blank rows none = [] := by
  intro rows
  induction rows with
  | nil => intro _; rfl
  | cons r rest ih =>
    intro h
    unfold NewExcl.regionScan
    rw [h r (List.mem_cons_self r rest)]
    simp only [Bool.not_true, Bool.false_eq_true, if_false]
    exact ih fun r' hr' => h r' (List.mem_cons_of_mem r hr')

/-- Invariant of the region scan: on a strictly ascending row list with an
open marker below every remaining row, every produced region has its start
at or below its end and starts at a scanned row (or the open marker), and
consecutive regions are strictly separated. -/
theorem NewExcl.regionScan_spec (blank : Nat → Bool) :
    ∀ (rows : List Nat) (opt : Option Nat),
      rows.Pairwise (· < ·) →
      (∀ s, opt = some s → ∀ r ∈ rows, s < r) →
      (∀ p ∈ NewExcl.regionScan blank rows opt,
        p.1 ≤ p.2 ∧ (p.1 ∈ rows ∨ opt = some p.1)) ∧
      List.Chain' (fun a b : Nat × Nat => a.2 < b.1)
        (NewExcl.regionScan blank rows opt) := by
  intro rows
  induction rows with
  | nil =>
    intro opt _ _
    constructor
    · intro p hp; cases opt <;> simp [NewExcl.regionScan] at hp
    · cases opt <;> simp [NewExcl.regionScan]
  | cons r rest ih =>
    intro opt hpw hopt
    have hpwr := (List.pairwise_cons.1 hpw).2
    have hhead := (List.pairwise_cons.1 hpw).1
    cases opt with
    | none =>
      by_cases hb : blank r = true
      · have := ih none hpwr (by intro s hs; cases hs)
        unfold NewExcl.regionScan
        rw [hb]
        simp only [Bool.not_true, Bool.false_eq_true, if_false]
        refine ⟨fun p hp => ?_, this.2⟩
        obtain ⟨h1, h2⟩ := (this.1 p hp)
        refine ⟨h1, ?_⟩
        rcases h2 with h2 | h2
        · exact Or.inl (List.mem_cons_of_mem r h2)
        · cases h2
      · have hbnd : ∀ s, some r = some s → ∀ r' ∈ rest, s < r' := by
          intro s hs r' hr'
          cases hs
          exact hhead r' hr'
        have := ih (some r) hpwr hbnd
        unfold NewExcl.regionScan
        rw [if_pos (by simp [hb])]
        refine ⟨fun p hp => ?_, this.2⟩
        obtain ⟨h1, h2⟩ := (this.1 p hp)
        refine ⟨h1, Or.inl ?_⟩
        rcases h2 with h2 | h2
        · exact List.mem_cons_of_mem r h2
        · cases h2; exact List.mem_cons_self _ _
    | some s =>
      have hs := hopt s rfl
      by_cases hb : blank r = true
      · have := ih none hpwr (by intro s' hs'; cases hs')
        unfold NewExcl.regionScan
        rw [hb]
        simp only [Bool.not_true, Bool.false_eq_true, if_false]
        constructor
        · intro p hp
          rcases List.mem_cons.1 hp with heq | hmem
          · subst heq
            refine ⟨?_, Or.inr rfl⟩
            have : s < r := hs r (List.mem_cons_self r rest)
            omega
          · obtain ⟨h1, h2⟩ := (this.1 p hmem)
            refine ⟨h1, ?_⟩
            rcases h2 with h2 | h2
            · exact Or.inl (List.mem_cons_of_mem r h2)
            · cases h2
        · rw [List.chain'_cons']
          refine ⟨?_, this.2⟩
          intro q hq
          have hqmem : q ∈ NewExcl.regionScan blank rest none :=
            List.mem_of_mem_head? hq
          obtain ⟨_, h2⟩ := (this.1 q hqmem)
          rcases h2 with h2 | h2
          · have : r < q.1 := hhead q.1 h2
            omega
          · cases h2
      · have hbnd : ∀ s', some s = some s' → ∀ r' ∈ rest, s' < r' := by
          intro s' hs' r' hr'
          cases hs'
          calc s < r := hs r (List.mem_cons_self r rest)
            _ < r' := hhead r' hr'
        have := ih (some s) hpwr hbnd
        unfold NewExcl.regionScan
        rw [if_pos (by simp [hb])]
        refine ⟨fun p hp => ?_, this.2⟩
        obtain ⟨h1, h2⟩ := (this.1 p hp)
        refine ⟨h1, ?_⟩
        rcases h2 with h2 | h2
        · exact Or.inl (List.mem_cons_of_mem r h2)
        · exact Or.inr h2

/-- Claim C7: region detection (`new_excl.py`, `_detect_table_regions`
lines 352-392).  The returned regions are ordered top-to-bottom without
overlap (each region ends strictly before the next begins), every region
spans the entire used column span with its start row at or below its end
row, a fully blank row range yields the empty list, and the concrete sheet
with rows data, data, blank, blank, data yields exactly the two regions
rows 1-2 and row 5, the second starting after both blank rows. -/
theorem claim_C7 (ws : Sheet) (minRow maxRow minCol maxCol : Nat) :
    (List.Chain' (fun a b => a.2.1 < b.1)
      (NewExcl.detectTableRegions ws minRow maxRow minCol maxCol) ∧
     ∀ p ∈ NewExcl.detectTableRegions ws minRow maxRow minCol maxCol,
       p.1 ≤ p.2.1 ∧ p.2.2 = (minCol, maxCol)) ∧
    ((List.range' minRow (maxRow + 1 - minRow)).all
        (NewExcl.rowBlank ws minCol maxCol) = true →
      NewExcl.detectTableRegions ws minRow maxRow minCol maxCol = []) ∧
    NewExcl.detectTableRegions Examples.wsRegions 1 5 1 1 =
      [(1, 2, 1, 1), (5, 5, 1, 1)] := by
  have hpw : (List.range' minRow (maxRow + 2 - minRow)).Pairwise (· < ·) :=
    List.pairwise_lt_range' ..
  have hspec := NewExcl.regionScan_spec
    (fun r => if r ≤ maxRow then NewExcl.rowBlank ws minCol maxCol r else true)
    (List.range' minRow (maxRow + 2 - minRow)) none hpw
    (by intro s hs; cases hs)
  refine ⟨⟨?_, ?_⟩, ?_, by decide⟩
  · unfold NewExcl.detectTableRegions
    rw [List.filter_eq_self.2]
    · rw [List.chain'_map]
      exact hspec.2
    · intro x hx
      rcases List.mem_map.1 hx with ⟨p, hp, rfl⟩
      have h1 := (hspec.1 p hp).1
      simp only [decide_eq_true_eq]
      omega
  · intro p hp
    unfold NewExcl.detectTableRegions at hp
    rw [List.mem_filter] at hp
    rcases List.mem_map.1 hp.1 with ⟨q, hq, rfl⟩
    exact ⟨(hspec.1 q hq).1, rfl⟩
  · intro hall
    unfold NewExcl.detectTableRegions
    dsimp only
    rw [NewExcl.regionScan_all_blank]
    · rfl
    · intro r hr
      by_cases hle : r ≤ maxRow
      · rw [if_pos hle]
        rw [List.all_eq_true] at hall
        apply hall
        rw [List.mem_range'_1] at hr ⊢
        omega
      · rw [if_neg hle]

/-- Witness for C7: a fully blank two-row sheet yields no regions. -/
theorem claim_C7_witness :
    NewExcl.detectTableRegions (fun _ _ => none) 1 2 1 3 = [] :=
  (claim_C7 (fun _ _ => none) 1 2 1 3).2.1 (by decide)

/-- Claim C5, amended: the category-chart table (`excel_clau.py`,
`_convert_chart_to_markdown` lines 230-266).  The header row is
`["Category"]` followed by the series names; the data-row count equals the
category count when categories resolve non-empty, and otherwise the largest
non-empty series value count — not the maximum of the two; when categories
are empty every label is synthesized as `"Row {i+1}"`; and a value missing
at a row index for some series renders as the empty string. -/
theorem claim_C5 (names : List String) (cats : List Value)
    (vals : List (List Value)) :
    (ExcelClau.categoryChartTable names cats vals = none ↔
      ExcelClau.catChartMaxLen cats vals = 0) ∧
    (ExcelClau.catChartMaxLen cats vals ≠ 0 →
      ExcelClau.categoryChartTable names cats vals =
        some (("Category" :: names) ::
          ExcelClau.categoryChartDataRows cats vals
            (ExcelClau.catChartMaxLen cats vals))) ∧
    (ExcelClau.categoryChartDataRows cats vals
        (ExcelClau.catChartMaxLen cats vals)).length =
      ExcelClau.catChartMaxLen cats vals ∧
    (cats ≠ [] → ExcelClau.catChartMaxLen cats vals = cats.length) ∧
    (∀ i, i < ExcelClau.catChartMaxLen cats vals → cats = [] →
      ((ExcelClau.categoryChartDataRows cats vals
          (ExcelClau.catChartMaxLen cats vals)).getD i []).headD "" =
        "Row " ++ toString (i + 1)) ∧
    (∀ i s, i < ExcelClau.catChartMaxLen cats vals → s < vals.length →
      (vals.getD s []).length ≤ i →
      ((ExcelClau.categoryChartDataRows cats vals
          (ExcelClau.catChartMaxLen cats vals)).getD i []).getD (s + 1) "?" =
        "") := by
  refine ⟨?_, ?_, ?_, ?_, ?_, ?_⟩
  · unfold ExcelClau.categoryChartTable
    by_cases h : ExcelClau.catChartMaxLen cats vals = 0 <;> simp [h]
  · intro h
    unfold ExcelClau.categoryChartTable
    rw [if_neg h]
  · unfold ExcelClau.categoryChartDataRows
    rw [List.length_map, List.length_range]
  · intro h
    unfold ExcelClau.catChartMaxLen
    rw [if_pos h]
  · intro i hi hc
    subst hc
    unfold ExcelClau.categoryChartDataRows
    dsimp only
    rw [getD_range_map _ _ i _ hi]
    have hlen : (ExcelClau.chartRowCategories []
        (ExcelClau.catChartMaxLen [] vals)).length =
        ExcelClau.catChartMaxLen [] vals := by
      unfold ExcelClau.chartRowCategories
      rw [if_pos rfl, List.length_map, List.length_range]
    simp only [List.headD_cons]
    rw [if_pos (by rw [hlen]; exact hi)]
    unfold ExcelClau.chartRowCategories
    rw [if_pos rfl, getD_range_map _ _ i _ hi]
    rfl
  · intro i s hi hs hlen
    unfold ExcelClau.categoryChartDataRows
    dsimp only
    rw [getD_range_map _ _ i _ hi, List.getD_cons_succ,
      getD_map_lt _ _ _ _ hs]
    rw [if_neg]
    intro hcon
    rw [List.getD_eq_getElem _ _ hs] at hlen
    omega

/-- Counterexample to C5 as stated: one category and a series of three
values yield one data row, not `max 1 3 = 3` rows. -/
theorem claim_C5_counterexample :
    ExcelClau.categoryChartTable ["S"] [Value.str "A"]
      [[Value.num 1, Value.num 2, Value.num 3]] =
      some [["Category", "S"], ["A", "1"]] ∧
    ([["Category", "S"], ["A", "1"]].length - 1 = 1) ∧
    Nat.max [Value.str "A"].length
      [Value.num 1, Value.num 2, Value.num 3].length = 3 ∧
    (1 : Nat) ≠ 3 := by decide

/-- Witness for C5: with no categories and one one-value series the table
is the header plus one synthesized `Row 1` data row. -/
theorem claim_C5_witness :
    ExcelClau.categoryChartTable ["S"] [] [[Value.num 7]] =
      some [["Category", "S"], ["Row 1", "7"]] :=
  ((claim_C5 ["S"] [] [[Value.num 7]]).2.1 (by decide)).trans (by decide)

/-- Characterization of the column-keep rule of
`_extract_table_to_markdown`. -/
theorem ExcelClau.keepColumn_iff (rowsData : List (List String)) (idx : Nat) :
    ExcelClau.keepColumn rowsData idx = true ↔
      (((rowsData.headD []).getD idx "" ≠ "" ∧
        Pystr.pyStartsWith "Unnamed" ((rowsData.headD []).getD idx "") = false) ∨
       ExcelClau.dataBelow rowsData idx = true) := by
  unfold ExcelClau.keepColumn
  by_cases h1 : (rowsData.headD []).getD idx "" = ""
  · simp [h1]
  · by_cases h2 :
      Pystr.pyStartsWith "Unnamed" ((rowsData.headD []).getD idx "") = true
    · simp [h1, h2]
    · simp only [Bool.not_eq_true] at h2
      simp [h1, h2]

/-- Claim C8, amended: column retention of `_extract_table_to_markdown`
(`excel_clau.py` lines 69-136).  A column is kept iff its header cell is
non-empty and does not start with `"Unnamed"`, or some data row below has a
non-empty value there; zero surviving columns yield the empty string; the
`Name / Unnamed: 1 / Age` table with a blank second column renders with
exactly the two columns `Name` and `Age`; with a data value in the second
column the table keeps three columns, but the rendered header row repeats
the original cells verbatim — the synthesized `"Column {i+1}"` names are
computed only for empty headers, into a variable the rendered output never
uses. -/
theorem claim_C8 (ws : Sheet) (sr sc er ec : Nat) :
    (∀ idx,
      idx ∈ ExcelClau.validColIndices (ExcelClau.extractRowsData ws sr sc er ec) ↔
        (idx < ((ExcelClau.extractRowsData ws sr sc er ec).headD []).length ∧
         ((((ExcelClau.extractRowsData ws sr sc er ec).headD []).getD idx "" ≠ "" ∧
           Pystr.pyStartsWith "Unnamed"
             (((ExcelClau.extractRowsData ws sr sc er ec).headD []).getD idx "") =
             false) ∨
          ExcelClau.dataBelow (ExcelClau.extractRowsData ws sr sc er ec) idx =
            true))) ∧
    (ExcelClau.validColIndices (ExcelClau.extractRowsData ws sr sc er ec) = [] →
      ExcelClau.extractTableToMarkdown ws sr sc er ec = "") ∧
    ExcelClau.filteredRows
      (ExcelClau.extractRowsData Examples.wsUnnamedBlank 1 1 2 3) =
      [["Name", "Age"], ["alice", "30"]] ∧
    ExcelClau.filteredRows
      (ExcelClau.extractRowsData Examples.wsUnnamedData 1 1 2 3) =
      [["Name", "Unnamed: 1", "Age"], ["alice", "zz", "30"]] ∧
    ExcelClau.filteredHeaders
      (ExcelClau.extractRowsData Examples.wsUnnamedData 1 1 2 3) =
      ["Name", "Unnamed: 1", "Age"] := by
  refine ⟨?_, ?_, by decide, by decide, by decide⟩
  · intro idx
    unfold ExcelClau.validColIndices
    rw [List.mem_filter, List.mem_range, ExcelClau.keepColumn_iff]
  · intro hvalid
    unfold ExcelClau.extractTableToMarkdown
    by_cases h0 : ExcelClau.extractRowsData ws sr sc er ec = []
    · rw [if_pos h0]
    · rw [if_neg h0, if_pos hvalid]

/-- Counterexample to C8 as stated: with a data value below the
`Unnamed: 1` header, the rendered header row keeps `"Unnamed: 1"`; it is
not replaced by `"Column 2"`. -/
theorem claim_C8_counterexample :
    (ExcelClau.filteredRows
      (ExcelClau.extractRowsData Examples.wsUnnamedData 1 1 2 3)).headD [] =
      ["Name", "Unnamed: 1", "Age"] ∧
    ¬(ExcelClau.filteredRows
      (ExcelClau.extractRowsData Examples.wsUnnamedData 1 1 2 3)).headD [] =
      ["Name", "Column 2", "Age"] := by decide

/-- Witness for C8: a sheet whose only content is an `Unnamed` header with
nothing below renders as the empty string. -/
theorem claim_C8_witness :
    ExcelClau.extractTableToMarkdown
      (fun r c => if r = 1 && c = 1 then some (Value.str "Unnamed: 9")
                  else none) 1 1 2 1 = "" :=
  (claim_C8 (fun r c => if r = 1 && c = 1 then some (Value.str "Unnamed: 9")
    else none) 1 1 2 1).2.1 (by decide)

/-- The operations of one `update_index` task are its deletes followed by
exactly two adds, all tagged with the task's file name, with no deletes at
all for a `"new"` task. -/
theorem NewTest1107.processTask_ops (st : NewTest1107.Stores)
    (t : NewTest1107.Doc × NewTest1107.Action) :
    ∃ dels, (NewTest1107.processTask st t).2 =
        dels ++ [NewTest1107.Op.add t.1.name, NewTest1107.Op.add t.1.name] ∧
      (∀ o ∈ dels, o.isDel = true ∧ o.file = t.1.name) ∧
      (t.2 = NewTest1107.Action.new → dels = []) := by
  cases ha : t.2 with
  | new =>
    refine ⟨[], ?_, by simp, fun _ => rfl⟩
    unfold NewTest1107.processTask
    rw [ha]
    rfl
  | overwrite =>
    refine ⟨(st.vstore.filter (fun n => n.name = t.1.name)).map
        (fun _ => NewTest1107.Op.del t.1.name) ++
      (st.sstore.filter (fun n => n.name = t.1.name)).map
        (fun _ => NewTest1107.Op.del t.1.name), ?_, ?_, ?_⟩
    · unfold NewTest1107.processTask NewTest1107.deleteDocument
        NewTest1107.saveDocument
      rw [ha]
      simp
    · intro o ho
      rcases List.mem_append.1 ho with h | h <;>
        · rcases List.mem_map.1 h with ⟨n, _, rfl⟩
          exact ⟨rfl, rfl⟩
    · intro hnew
      cases hnew

/-- Every trace entry of the `update_index` loop belongs to the task list
and is the operation list of `processTask` at some store state. -/
theorem NewTest1107.updateIndex_trace (st : NewTest1107.Stores)
    (tasks : List (NewTest1107.Doc × NewTest1107.Action)) :
    ∀ e ∈ (NewTest1107.updateIndex st tasks).2,
      e.1 ∈ tasks ∧
      ∃ st0, e.2 = (NewTest1107.processTask st0 e.1).2 := by
  induction tasks generalizing st with
  | nil => intro e he; simp [NewTest1107.updateIndex] at he
  | cons t rest ih =>
    intro e he
    unfold NewTest1107.updateIndex at he
    rcases List.mem_cons.1 he with heq | hmem
    · subst heq
      exact ⟨List.mem_cons_self _ _, st, rfl⟩
    · obtain ⟨h1, h2⟩ := ih (NewTest1107.processTask st t).1 e hmem
      exact ⟨List.mem_cons_of_mem t h1, h2⟩

/-- In a delete-block followed by an add-block, any delete position forces
every earlier position to be a delete: no add precedes a delete. -/
theorem NewTest1107.del_prefix (dels adds : List NewTest1107.Op)
    (hd : ∀ o ∈ dels, o.isDel = true) (ha : ∀ o ∈ adds, o.isDel = false) :
    ∀ i j, ∀ hi : i < (dels ++ adds).length, ∀ hj : j < (dels ++ adds).length,
      i ≤ j → ((dels ++ adds)[j]).isDel = true →
      ((dels ++ adds)[i]).isDel = true := by
  intro i j hi hj hij hdel
  by_cases hjd : j < dels.length
  · have hid : i < dels.length := Nat.lt_of_le_of_lt hij hjd
    rw [List.getElem_append_left hid]
    exact hd _ (List.getElem_mem hid)
  · exfalso
    have hge : dels.length ≤ j := Nat.le_of_not_lt hjd
    have hsub : j - dels.length < adds.length := by
      have := hj
      rw [List.length_append] at this
      omega
    rw [List.getElem_append_right hge] at hdel
    have hfalse : adds[j - dels.length].isDel = false :=
      ha _ (List.getElem_mem hsub)
    rw [hfalse] at hdel
    cases hdel

/-- `_build_tasks` characterization: with a cache holding nothing for the
given documents and duplicate-free document names, each produced task is one
of the documents together with the classification of its stored hash. -/
theorem NewTest1107.buildTasks_mem (vstore : List NewTest1107.StoreNode) :
    ∀ (docs : List NewTest1107.Doc)
      (cache : List (String × Option String)),
      (∀ dd ∈ docs, NewTest1107.assocGet cache dd.name = none) →
      (docs.map NewTest1107.Doc.name).Nodup →
      ∀ t ∈ (NewTest1107.buildTasks vstore docs cache).1,
        t.1 ∈ docs ∧
        NewTest1107.classify
          (NewTest1107.getFileHashFromStore t.1.name vstore) t.1.hash =
          some t.2 := by
  intro docs
  induction docs with
  | nil => intro cache _ _ t ht; simp [NewTest1107.buildTasks] at ht
  | cons d rest ih =>
    intro cache hc hnd t ht
    have hdc : NewTest1107.assocGet cache d.name = none :=
      hc d (List.mem_cons_self d rest)
    have hnd2 : d.name ∉ rest.map NewTest1107.Doc.name ∧
        (rest.map NewTest1107.Doc.name).Nodup := by
      rw [List.map_cons, List.nodup_cons] at hnd
      exact hnd
    have hrest : ∀ dd ∈ rest,
        NewTest1107.assocGet
          ((d.name, NewTest1107.getFileHashFromStore d.name vstore) :: cache)
          dd.name = none := by
      intro dd hdd
      have hne : d.name ≠ dd.name := by
        intro heq
        exact hnd2.1 (heq ▸ List.mem_map_of_mem NewTest1107.Doc.name hdd)
      unfold NewTest1107.assocGet
      rw [if_neg hne]
      exact hc dd (List.mem_cons_of_mem d hdd)
    unfold NewTest1107.buildTasks at ht
    rw [hdc] at ht
    dsimp only at ht
    cases hcl : NewTest1107.classify
        (NewTest1107.getFileHashFromStore d.name vstore) d.hash with
    | none =>
      rw [hcl] at ht
      dsimp only at ht
      obtain ⟨h1, h2⟩ := ih _ hrest hnd2.2 t ht
      exact ⟨List.mem_cons_of_mem d h1, h2⟩
    | some a =>
      rw [hcl] at ht
      dsimp only at ht
      rcases List.mem_cons.1 ht with heq | hmem
      · subst heq
        exact ⟨List.mem_cons_self d rest, hcl⟩
      · obtain ⟨h1, h2⟩ := ih _ hrest hnd2.2 t hmem
        exact ⟨List.mem_cons_of_mem d h1, h2⟩

/-- Claim C2: ordering within a document's indexing task
(`new_test_1107.py` `update_index` lines 178-189 and the identically-shaped
`new_storing.py` `update_index` lines 91-103).  In every task's operation
trace no add precedes a delete (for a changed document all deletes of its
existing fragments come before its adds); a new document's task performs no
delete; every operation of a task targets that task's document; and a
document classified unchanged produces no task, so no operation of the whole
run targets it. -/
theorem claim_C2 (vstore0 sstore0 : List NewTest1107.StoreNode)
    (docs : List NewTest1107.Doc)
    (hnd : (docs.map NewTest1107.Doc.name).Nodup) :
    (∀ e ∈ (NewTest1107.updateIndex ⟨vstore0, sstore0⟩
        (NewTest1107.buildTasks vstore0 docs []).1).2,
      (∀ i j, ∀ hi : i < e.2.length, ∀ hj : j < e.2.length, i ≤ j →
        (e.2[i]).isDel = false → (e.2[j]).isDel = false) ∧
      (e.1.2 = NewTest1107.Action.new →
        ∀ op ∈ e.2, op.isDel = false) ∧
      (∀ op ∈ e.2, op.file = e.1.1.name)) ∧
    (∀ d ∈ docs,
      NewTest1107.classify
        (NewTest1107.getFileHashFromStore d.name vstore0) d.hash = none →
      ∀ e ∈ (NewTest1107.updateIndex ⟨vstore0, sstore0⟩
          (NewTest1107.buildTasks vstore0 docs []).1).2,
        ∀ op ∈ e.2, op.file ≠ d.name) := by
  constructor
  · intro e he
    obtain ⟨-, st0, hops⟩ :=
      NewTest1107.updateIndex_trace ⟨vstore0, sstore0⟩ _ e he
    obtain ⟨dels, hdecomp, hdels, hnew⟩ :=
      NewTest1107.processTask_ops st0 e.1
    rw [hops, hdecomp]
    refine ⟨?_, ?_, ?_⟩
    · intro i j hi hj hij hadd
      by_contra hcon
      simp only [Bool.not_eq_false] at hcon
      have := NewTest1107.del_prefix dels
        [NewTest1107.Op.add e.1.1.name, NewTest1107.Op.add e.1.1.name]
        (fun o ho => (hdels o ho).1)
        (by intro o ho; rcases List.mem_cons.1 ho with rfl | ho'
            · rfl
            · rcases List.mem_cons.1 ho' with rfl | ho''
              · rfl
              · cases ho'')
        i j hi hj hij hcon
      rw [this] at hadd
      cases hadd
    · intro ha op hop
      rw [hnew ha] at hop
      simp only [List.nil_append] at hop
      rcases List.mem_cons.1 hop with rfl | hop'
      · rfl
      · rcases List.mem_cons.1 hop' with rfl | hop''
        · rfl
        · cases hop''
    · intro op hop
      rcases List.mem_append.1 hop with h | h
      · exact (hdels op h).2
      · rcases List.mem_cons.1 h with rfl | h'
        · rfl
        · rcases List.mem_cons.1 h' with rfl | h''
          · rfl
          · cases h''
  · intro d hd hclass e he op hop
    obtain ⟨hmem, st0, hops⟩ :=
      NewTest1107.updateIndex_trace ⟨vstore0, sstore0⟩ _ e he
    obtain ⟨dels, hdecomp, hdels, -⟩ := NewTest1107.processTask_ops st0 e.1
    have hfile : op.file = e.1.1.name := by
      rw [hops, hdecomp] at hop
      rcases List.mem_append.1 hop with h | h
      · exact (hdels op h).2
      · rcases List.mem_cons.1 h with rfl | h'
        · rfl
        · rcases List.mem_cons.1 h' with rfl | h''
          · rfl
          · cases h''
    obtain ⟨hdoc, hcl⟩ := NewTest1107.buildTasks_mem vstore0 docs []
      (fun _ _ => rfl) hnd e.1 hmem
    intro hcon
    have : e.1.1 = d :=
      List.inj_on_of_nodup_map hnd hdoc hd (by rw [← hfile, hcon])
    rw [this] at hcl
    rw [hclass] at hcl
    cases hcl

/-- Witness for C2: with document `a` stored unchanged and document `b` new,
the single run operation is an add for `b`, so it does not target `a`. -/
theorem claim_C2_witness :
    NewTest1107.Op.file (NewTest1107.Op.add "b") ≠ "a" :=
  (claim_C2 [⟨"a", some "h"⟩] [] [⟨"/a", "a", "h"⟩, ⟨"/b", "b", "h2"⟩]
    (by decide)).2 ⟨"/a", "a", "h"⟩ (by decide) (by decide)
    ((⟨"/b", "b", "h2"⟩, NewTest1107.Action.new),
      [NewTest1107.Op.add "b", NewTest1107.Op.add "b"])
    (by decide) (NewTest1107.Op.add "b") (by decide)

/-- The run produces exactly one result tuple per task. -/
theorem NoReupload.runTasks_length (addF sumF : String → Bool) :
    ∀ (tasks : List NoReupload.Task) (st : NoReupload.State),
      (NoReupload.runTasks addF sumF st tasks).2.2.length = tasks.length := by
  intro tasks
  induction tasks with
  | nil => intro st; rfl
  | cons t rest ih =>
    intro st
    unfold NoReupload.runTasks
    simp only [List.length_cons, ih]

/-- With an empty cache, every document becomes a `"new"` task. -/
theorem NoReupload.buildTasks_nil_cache :
    ∀ docs : List NoReupload.Doc,
      NoReupload.buildTasks [] docs =
        docs.map fun d => ⟨d.name, d.hash, "new"⟩ := by
  intro docs
  induction docs with
  | nil => rfl
  | cons d rest ih =>
    unfold NoReupload.buildTasks
    rw [ih]
    rfl

/-- With a never-failing summary store and only `"new"` tasks, the results
are determined by the vector-add oracle and the vector store receives every
node whose add did not fail, in order. -/
theorem NoReupload.runTasks_spec (addF sumF : String → Bool)
    (hsum : ∀ n, sumF n = false) :
    ∀ (tasks : List NoReupload.Task) (st : NoReupload.State),
      (∀ t ∈ tasks, t.action = "new") →
      (NoReupload.runTasks addF sumF st tasks).2.2 =
        tasks.map (fun t =>
          ⟨t.name, if addF t.name then some "vector add failed" else none⟩) ∧
      (NoReupload.runTasks addF sumF st tasks).1.vstore =
        st.vstore ++
          (tasks.filter fun t => !addF t.name).map fun t => (t.name, t.hash) := by
  intro tasks
  induction tasks with
  | nil => intro st _; exact ⟨rfl, by simp [NoReupload.runTasks]⟩
  | cons t rest ih =>
    intro st hact
    have hat : t.action = "new" := hact t (List.mem_cons_self t rest)
    have hrest : ∀ t' ∈ rest, t'.action = "new" :=
      fun t' ht' => hact t' (List.mem_cons_of_mem t ht')
    unfold NoReupload.runTasks
    have hskip : ¬(t.action ≠ "new" ∧ t.action ≠ "modified") := by
      rw [hat]; simp
    by_cases haf : addF t.name = true
    · have hpn : NoReupload.prepareNodes addF sumF st t =
          (st, [], ⟨t.name, some "vector add failed"⟩) := by
        unfold NoReupload.prepareNodes
        rw [if_neg hskip, if_pos haf]
      rw [hpn]
      obtain ⟨h1, h2⟩ := ih st hrest
      dsimp only
      rw [h1, h2]
      refine ⟨by simp [haf], ?_⟩
      rw [List.filter_cons_of_neg (by simp [haf])]
    · have haf' : addF t.name = false := by
        simpa using haf
      have hpn : NoReupload.prepareNodes addF sumF st t =
          ({ st with
              vstore := st.vstore ++ [(t.name, t.hash)],
              sstore := st.sstore ++ [(t.name, t.hash)],
              cache := (t.name, t.hash) :: st.cache },
           [NoReupload.ROp.addVec t.name, NoReupload.ROp.addSum t.name],
           ⟨t.name, none⟩) := by
        unfold NoReupload.prepareNodes
        rw [if_neg hskip, if_neg (by simp [haf']), if_neg (by simp [hsum])]
      rw [hpn]
      obtain ⟨h1, h2⟩ := ih { st with
        vstore := st.vstore ++ [(t.name, t.hash)],
        sstore := st.sstore ++ [(t.name, t.hash)],
        cache := (t.name, t.hash) :: st.cache } hrest
      dsimp only
      rw [h1, h2]
      refine ⟨by simp [haf'], ?_⟩
      rw [List.filter_cons_of_pos (by simp [haf'])]
      simp

/-- Full accounting: the succeeded and failed counts of one `update_index`
run always sum to the number of prepared tasks. -/
theorem NoReupload.updateIndex_counts (addF sumF : String → Bool)
    (st : NoReupload.State) (docs : List NoReupload.Doc) :
    (NoReupload.updateIndex addF sumF st docs).succeeded +
      (NoReupload.updateIndex addF sumF st docs).failed =
      (NoReupload.buildTasks st.cache docs).length := by
  by_cases hd : docs = []
  · subst hd
    rfl
  · unfold NoReupload.updateIndex
    rw [if_neg hd]
    by_cases ht : NoReupload.buildTasks st.cache docs = []
    · rw [ht]
      simp
    · rw [if_neg ht]
      dsimp only
      rw [← List.countP_eq_length_filter, ← List.countP_eq_length_filter]
      have h := List.length_eq_countP_add_countP
        (fun r : NoReupload.TaskResult => decide (r.err = none))
        (NoReupload.runTasks addF sumF st
          (NoReupload.buildTasks st.cache docs)).2.2
      rw [NoReupload.runTasks_length] at h
      rw [h]
      congr 1
      apply List.countP_congr
      intro r _
      simp

/-- Claim C3: partial-failure isolation and full accounting of
`update_index` (`no_reupload.py` lines 35-161).  Every run ends with the
succeeded and failed counts summing to the number of prepared tasks — each
processed document is counted exactly once; and when the cache is fresh, the
document names are distinct, the summary store never fails, and the vector
`add` raises for exactly one present document, then the failed count is
exactly 1, the succeeded count is the remaining document count, and every
other document's node is in the final vector store. -/
theorem claim_C3 (addF sumF : String → Bool) (st : NoReupload.State)
    (docs : List NoReupload.Doc) (bad : String) :
    ((NoReupload.updateIndex addF sumF st docs).succeeded +
      (NoReupload.updateIndex addF sumF st docs).failed =
        (NoReupload.buildTasks st.cache docs).length) ∧
    (st.cache = [] → (docs.map NoReupload.Doc.name).Nodup →
      (∀ n, addF n = true ↔ n = bad) → (∀ n, sumF n = false) →
      bad ∈ docs.map NoReupload.Doc.name →
      (NoReupload.updateIndex addF sumF st docs).failed = 1 ∧
      (NoReupload.updateIndex addF sumF st docs).succeeded =
        docs.length - 1 ∧
      (∀ d ∈ docs, d.name ≠ bad →
        (d.name, d.hash) ∈
          (NoReupload.updateIndex addF sumF st docs).state.vstore)) := by
  constructor
  · exact NoReupload.updateIndex_counts addF sumF st docs
  · intro hcache hnd hone hsum hbad
    have hdocs : docs ≠ [] := by
      intro h
      subst h
      simp at hbad
    have htasks : NoReupload.buildTasks st.cache docs =
        docs.map fun d => ⟨d.name, d.hash, "new"⟩ := by
      rw [hcache]
      exact NoReupload.buildTasks_nil_cache docs
    have htne : NoReupload.buildTasks st.cache docs ≠ [] := by
      rw [htasks]
      simp [hdocs]
    have hact : ∀ t ∈ NoReupload.buildTasks st.cache docs,
        t.action = "new" := by
      rw [htasks]
      intro t ht
      rcases List.mem_map.1 ht with ⟨d, _, rfl⟩
      rfl
    obtain ⟨hres, hvst⟩ := NoReupload.runTasks_spec addF sumF hsum
      (NoReupload.buildTasks st.cache docs) st hact
    have hcount : ∀ p : NoReupload.TaskResult → Bool,
        ((NoReupload.runTasks addF sumF st
          (NoReupload.buildTasks st.cache docs)).2.2.filter p).length =
        List.countP (fun d : NoReupload.Doc =>
          p ⟨d.name, if addF d.name then some "vector add failed" else none⟩)
          docs := by
      intro p
      rw [← List.countP_eq_length_filter, hres, htasks, List.countP_map,
        List.countP_map]
      rfl
    have hfail :
        ((NoReupload.runTasks addF sumF st
          (NoReupload.buildTasks st.cache docs)).2.2.filter
            fun r => decide (r.err ≠ none)).length = 1 := by
      rw [hcount]
      have hstep : ∀ d : NoReupload.Doc,
          (decide ((if addF d.name then
              (some "vector add failed" : Option String) else none) ≠ none)) =
            (d.name == bad) := by
        intro d
        by_cases h : addF d.name = true
        · rw [if_pos h]
          have := (hone d.name).1 h
          simp [this]
        · have h' : addF d.name = false := by simpa using h
          rw [if_neg (by simp [h'])]
          have : ¬d.name = bad := fun heq => by
            rw [(hone d.name).2 heq] at h'
            cases h'
          simp [this]
      calc List.countP (fun d : NoReupload.Doc =>
            decide ((if addF d.name then
              (some "vector add failed" : Option String) else none) ≠ none)) docs
          = List.countP (fun d : NoReupload.Doc => d.name == bad) docs := by
            apply List.countP_congr
            intro d _
            rw [hstep d]
        _ = List.countP (fun x => x == bad) (docs.map NoReupload.Doc.name) := by
            rw [List.countP_map]
            rfl
        _ = List.count bad (docs.map NoReupload.Doc.name) :=
            (List.count_eq_countP bad _).symm
        _ = 1 := List.count_eq_one_of_mem hnd hbad
    have hrun : NoReupload.updateIndex addF sumF st docs =
        ⟨(NoReupload.runTasks addF sumF st
            (NoReupload.buildTasks st.cache docs)).1,
         (NoReupload.runTasks addF sumF st
            (NoReupload.buildTasks st.cache docs)).2.1,
         ((NoReupload.runTasks addF sumF st
            (NoReupload.buildTasks st.cache docs)).2.2.filter
              fun r => r.err = none).length,
         ((NoReupload.runTasks addF sumF st
            (NoReupload.buildTasks st.cache docs)).2.2.filter
              fun r => r.err ≠ none).length,
         ((NoReupload.runTasks addF sumF st
            (NoReupload.buildTasks st.cache docs)).2.2.filter
              fun r => r.err = none).length⟩ := by
      unfold NoReupload.updateIndex
      rw [if_neg hdocs, if_neg htne]
    have hcounts := NoReupload.updateIndex_counts addF sumF st docs
    rw [hrun] at hcounts
    dsimp only at hcounts
    have hlen2 : (NoReupload.buildTasks st.cache docs).length = docs.length := by
      rw [htasks, List.length_map]
    refine ⟨?_, ?_, ?_⟩
    · rw [hrun]
      dsimp only
      exact hfail
    · rw [hrun]
      dsimp only
      omega
    · intro d hd hne
      rw [hrun]
      dsimp only
      rw [hvst]
      apply List.mem_append_right
      have hmemf : (⟨d.name, d.hash, "new"⟩ : NoReupload.Task) ∈
          (NoReupload.buildTasks st.cache docs).filter
            fun t => !addF t.name := by
        rw [List.mem_filter]
        constructor
        · rw [htasks]
          exact List.mem_map_of_mem _ hd
        · have h' : addF d.name = false := by
            by_cases h : addF d.name = true
            · exact absurd ((hone d.name).1 h) hne
            · simpa using h
          simp [h']
      exact List.mem_map_of_mem
        (fun t : NoReupload.Task => (t.name, t.hash)) hmemf

/-- Witness for C3: two documents, the vector add failing only for `b`:
the failed count is 1, the succeeded count is 1, and `a`'s node is stored. -/
theorem claim_C3_witness :
    (NoReupload.updateIndex (fun n => n == "b") (fun _ => false)
      ⟨[], [], []⟩ [⟨"a", "h1"⟩, ⟨"b", "h2"⟩]).failed = 1 ∧
    (NoReupload.updateIndex (fun n => n == "b") (fun _ => false)
      ⟨[], [], []⟩ [⟨"a", "h1"⟩, ⟨"b", "h2"⟩]).succeeded = 1 ∧
    ("a", "h1") ∈ (NoReupload.updateIndex (fun n => n == "b")
      (fun _ => false) ⟨[], [], []⟩ [⟨"a", "h1"⟩, ⟨"b", "h2"⟩]).state.vstore := by
  obtain ⟨h1, h2, h3⟩ := (claim_C3 (fun n => n == "b") (fun _ => false)
    ⟨[], [], []⟩ [⟨"a", "h1"⟩, ⟨"b", "h2"⟩] "b").2 rfl (by decide)
    (by intro n; constructor <;> (intro h; simpa using h))
    (fun _ => rfl) (by decide)
  exact ⟨h1, h2, h3 ⟨"a", "h1"⟩ (by decide) (by decide)⟩

/-- When `_build_tasks` produces no task, every document's cached hash
equals its incoming hash. -/
theorem NoReupload.buildTasks_eq_nil_mem (cache : List (String × String)) :
    ∀ docs : List NoReupload.Doc, NoReupload.buildTasks cache docs = [] →
      ∀ d ∈ docs, NoReupload.cacheGet cache d.name = some d.hash := by
  intro docs
  induction docs with
  | nil => intro _ d hd; cases hd
  | cons d rest ih =>
    intro hnil d' hd'
    unfold NoReupload.buildTasks at hnil
    cases hg : NoReupload.cacheGet cache d.name with
    | none => rw [hg] at hnil; cases hnil
    | some h =>
      rw [hg] at hnil
      dsimp only at hnil
      by_cases hne : h ≠ d.hash
      · rw [if_pos hne] at hnil; cases hnil
      · rw [if_neg hne] at hnil
        rcases List.mem_cons.1 hd' with rfl | hmem
        · rw [hg]
          simp only [Decidable.not_not] at hne
          rw [hne]
        · exact ih hnil d' hmem

/-- When every document's hash is already cached, `_build_tasks` produces
no task. -/
theorem NoReupload.buildTasks_all_cached (cache : List (String × String)) :
    ∀ docs : List NoReupload.Doc,
      (∀ d ∈ docs, NoReupload.cacheGet cache d.name = some d.hash) →
      NoReupload.buildTasks cache docs = [] := by
  intro docs
  induction docs with
  | nil => intro _; rfl
  | cons d rest ih =>
    intro hall
    unfold NoReupload.buildTasks
    rw [hall d (List.mem_cons_self d rest)]
    dsimp only
    rw [if_neg (by simp)]
    exact ih fun d' hd' => hall d' (List.mem_cons_of_mem d hd')

/-- Every task of `_build_tasks` comes from a document whose cached hash was
missing (action `"new"`) or differed (action `"modified"`). -/
theorem NoReupload.buildTasks_mem_doc (cache : List (String × String)) :
    ∀ (docs : List NoReupload.Doc) (t : NoReupload.Task),
      t ∈ NoReupload.buildTasks cache docs →
      ∃ d, d ∈ docs ∧ t.name = d.name ∧ t.hash = d.hash ∧
        ((t.action = "new" ∧ NoReupload.cacheGet cache d.name = none) ∨
         (t.action = "modified" ∧
           ∃ h, NoReupload.cacheGet cache d.name = some h ∧ h ≠ d.hash)) := by
  intro docs
  induction docs with
  | nil => intro t ht; cases ht
  | cons d rest ih =>
    intro t ht
    unfold NoReupload.buildTasks at ht
    cases hg : NoReupload.cacheGet cache d.name with
    | none =>
      rw [hg] at ht
      rcases List.mem_cons.1 ht with rfl | hmem
      · exact ⟨d, List.mem_cons_self d rest, rfl, rfl, Or.inl ⟨rfl, hg⟩⟩
      · obtain ⟨dd, h1, h2⟩ := ih t hmem
        exact ⟨dd, List.mem_cons_of_mem d h1, h2⟩
    | some h =>
      rw [hg] at ht
      dsimp only at ht
      by_cases hne : h ≠ d.hash
      · rw [if_pos hne] at ht
        rcases List.mem_cons.1 ht with rfl | hmem
        · exact ⟨d, List.mem_cons_self d rest, rfl, rfl,
            Or.inr ⟨rfl, h, hg, hne⟩⟩
        · obtain ⟨dd, h1, h2⟩ := ih t hmem
          exact ⟨dd, List.mem_cons_of_mem d h1, h2⟩
      · rw [if_neg hne] at ht
        obtain ⟨dd, h1, h2⟩ := ih t ht
        exact ⟨dd, List.mem_cons_of_mem d h1, h2⟩

/-- Every document is either turned into a `"new"` or `"modified"` task or
already carries its cached hash. -/
theorem NoReupload.buildTasks_covers (cache : List (String × String)) :
    ∀ (docs : List NoReupload.Doc) (d : NoReupload.Doc), d ∈ docs →
      (⟨d.name, d.hash, "new"⟩ : NoReupload.Task) ∈
        NoReupload.buildTasks cache docs ∨
      (⟨d.name, d.hash, "modified"⟩ : NoReupload.Task) ∈
        NoReupload.buildTasks cache docs ∨
      NoReupload.cacheGet cache d.name = some d.hash := by
  intro docs
  induction docs with
  | nil => intro d hd; cases hd
  | cons d0 rest ih =>
    intro d hd
    unfold NoReupload.buildTasks
    rcases List.mem_cons.1 hd with rfl | hmem
    · cases hg : NoReupload.cacheGet cache d.name with
      | none => exact Or.inl (List.mem_cons_self _ _)
      | some h =>
        dsimp only
        by_cases hne : h ≠ d.hash
        · rw [if_pos hne]
          exact Or.inr (Or.inl (List.mem_cons_self _ _))
        · simp only [Decidable.not_not] at hne
          subst hne
          exact Or.inr (Or.inr rfl)
    · cases hg : NoReupload.cacheGet cache d0.name with
      | none =>
        rcases ih d hmem with h | h | h
        · exact Or.inl (List.mem_cons_of_mem _ h)
        · exact Or.inr (Or.inl (List.mem_cons_of_mem _ h))
        · exact Or.inr (Or.inr h)
      | some h0 =>
        dsimp only
        by_cases hne : h0 ≠ d0.hash
        · rw [if_pos hne]
          rcases ih d hmem with h | h | h
          · exact Or.inl (List.mem_cons_of_mem _ h)
          · exact Or.inr (Or.inl (List.mem_cons_of_mem _ h))
          · exact Or.inr (Or.inr h)
        · rw [if_neg hne]
          exact ih d hmem

/-- The task names of `_build_tasks` form a sublist of the document
names. -/
theorem NoReupload.buildTasks_names_sublist (cache : List (String × String)) :
    ∀ docs : List NoReupload.Doc,
      ((NoReupload.buildTasks cache docs).map NoReupload.Task.name).Sublist
        (docs.map NoReupload.Doc.name) := by
  intro docs
  induction docs with
  | nil => simp [NoReupload.buildTasks]
  | cons d rest ih =>
    unfold NoReupload.buildTasks
    cases hg : NoReupload.cacheGet cache d.name with
    | none =>
      rw [List.map_cons, List.map_cons]
      exact List.Sublist.cons₂ d.name ih
    | some h =>
      dsimp only
      by_cases hne : h ≠ d.hash
      · rw [if_pos hne, List.map_cons, List.map_cons]
        exact List.Sublist.cons₂ d.name ih
      · rw [if_neg hne, List.map_cons]
        exact List.Sublist.cons d.name ih

/-- Cache lookup skips an entry with a different key. -/
theorem NoReupload.cacheGet_cons_ne (k' v : String)
    (c : List (String × String)) (k : String) (h : k' ≠ k) :
    NoReupload.cacheGet ((k', v) :: c) k = NoReupload.cacheGet c k := by
  simp [NoReupload.cacheGet, h]

/-- Cache lookup finds the entry just prepended. -/
theorem NoReupload.cacheGet_cons_self (k v : String)
    (c : List (String × String)) :
    NoReupload.cacheGet ((k, v) :: c) k = some v := by
  simp [NoReupload.cacheGet]

/-- `_prepare_nodes` leaves the cache unchanged or prepends exactly its own
document's entry. -/
theorem NoReupload.prepareNodes_cache (addF sumF : String → Bool)
    (st : NoReupload.State) (t : NoReupload.Task) :
    (NoReupload.prepareNodes addF sumF st t).1.cache = st.cache ∨
    (NoReupload.prepareNodes addF sumF st t).1.cache =
      (t.name, t.hash) :: st.cache := by
  unfold NoReupload.prepareNodes
  by_cases h1 : t.action ≠ "new" ∧ t.action ≠ "modified"
  · rw [if_pos h1]; exact Or.inl rfl
  · rw [if_neg h1]
    by_cases h2 : addF t.name = true
    · rw [if_pos h2]; exact Or.inl rfl
    · rw [if_neg h2]
      by_cases h3 : sumF t.name = true
      · rw [if_pos h3]; exact Or.inl rfl
      · rw [if_neg h3]; exact Or.inr rfl

/-- A cache key touched by no task keeps its value across the run. -/
theorem NoReupload.runTasks_cache_preserved (addF sumF : String → Bool) :
    ∀ (tasks : List NoReupload.Task) (st : NoReupload.State) (k : String),
      (∀ t ∈ tasks, t.name ≠ k) →
      NoReupload.cacheGet
        (NoReupload.runTasks addF sumF st tasks).1.cache k =
        NoReupload.cacheGet st.cache k := by
  intro tasks
  induction tasks with
  | nil => intro st k _; rfl
  | cons t rest ih =>
    intro st k hk
    unfold NoReupload.runTasks
    dsimp only
    rw [ih _ k fun t' ht' => hk t' (List.mem_cons_of_mem t ht')]
    rcases NoReupload.prepareNodes_cache addF sumF st t with h | h
    · rw [h]
    · rw [h, NoReupload.cacheGet_cons_ne _ _ _ _
        (hk t (List.mem_cons_self t rest))]

/-- After a failure-free run over distinct task names, every task's hash is
cached. -/
theorem NoReupload.runTasks_cache_set (addF sumF : String → Bool) :
    ∀ (tasks : List NoReupload.Task) (st : NoReupload.State),
      (∀ t ∈ tasks, addF t.name = false ∧ sumF t.name = false ∧
        (t.action = "new" ∨ t.action = "modified")) →
      (tasks.map NoReupload.Task.name).Nodup →
      ∀ t ∈ tasks, NoReupload.cacheGet
        (NoReupload.runTasks addF sumF st tasks).1.cache t.name =
        some t.hash := by
  intro tasks
  induction tasks with
  | nil => intro st _ _ t ht; cases ht
  | cons t0 rest ih =>
    intro st hok hnd t ht
    have hnd2 : t0.name ∉ rest.map NoReupload.Task.name ∧
        (rest.map NoReupload.Task.name).Nodup := by
      rw [List.map_cons, List.nodup_cons] at hnd
      exact hnd
    obtain ⟨ha0, hs0, hact0⟩ := hok t0 (List.mem_cons_self t0 rest)
    have hpn : (NoReupload.prepareNodes addF sumF st t0).1.cache =
        (t0.name, t0.hash) :: st.cache := by
      unfold NoReupload.prepareNodes
      rw [if_neg (by rcases hact0 with h | h <;> simp [h]),
        if_neg (by simp [ha0]), if_neg (by simp [hs0])]
    unfold NoReupload.runTasks
    dsimp only
    rcases List.mem_cons.1 ht with rfl | hmem
    · have hne : ∀ t' ∈ rest, t'.name ≠ t.name := by
        intro t' ht' heq
        exact hnd2.1 (heq ▸ List.mem_map_of_mem NoReupload.Task.name ht')
      rw [NoReupload.runTasks_cache_preserved addF sumF rest _ t.name hne,
        hpn, NoReupload.cacheGet_cons_self]
    · exact ih _ (fun t' ht' => hok t' (List.mem_cons_of_mem t0 ht'))
        hnd2.2 t hmem

/-- When no task is prepared for a non-empty document set, `update_index`
returns zero counts and an untouched state. -/
theorem NoReupload.updateIndex_no_tasks (addF sumF : String → Bool)
    (st : NoReupload.State) (docs : List NoReupload.Doc)
    (hdocs : docs ≠ [])
    (ht : NoReupload.buildTasks st.cache docs = []) :
    NoReupload.updateIndex addF sumF st docs = ⟨st, [], 0, 0, 0⟩ := by
  unfold NoReupload.updateIndex
  rw [if_neg hdocs]
  dsimp only
  rw [if_pos ht]

/-- After a failure-free `update_index` run over documents with distinct
names, every document's hash is cached. -/
theorem NoReupload.updateIndex_cache (addF sumF : String → Bool)
    (st : NoReupload.State) (docs : List NoReupload.Doc)
    (hnd : (docs.map NoReupload.Doc.name).Nodup)
    (hnofail : ∀ d ∈ docs, addF d.name = false ∧ sumF d.name = false) :
    ∀ d ∈ docs, NoReupload.cacheGet
      (NoReupload.updateIndex addF sumF st docs).state.cache d.name =
      some d.hash := by
  intro d hd
  by_cases hdocs : docs = []
  · subst hdocs; cases hd
  · unfold NoReupload.updateIndex
    rw [if_neg hdocs]
    dsimp only
    by_cases ht : NoReupload.buildTasks st.cache docs = []
    · rw [if_pos ht]
      exact NoReupload.buildTasks_eq_nil_mem st.cache docs ht d hd
    · rw [if_neg ht]
      dsimp only
      have hok : ∀ t ∈ NoReupload.buildTasks st.cache docs,
          addF t.name = false ∧ sumF t.name = false ∧
          (t.action = "new" ∨ t.action = "modified") := by
        intro t htm
        obtain ⟨dd, hdd, hn, -, hcase⟩ :=
          NoReupload.buildTasks_mem_doc st.cache docs t htm
        obtain ⟨ha, hs⟩ := hnofail dd hdd
        refine ⟨by rw [hn]; exact ha, by rw [hn]; exact hs, ?_⟩
        rcases hcase with ⟨h, -⟩ | ⟨h, -⟩
        · exact Or.inl h
        · exact Or.inr h
      have hndt : ((NoReupload.buildTasks st.cache docs).map
          NoReupload.Task.name).Nodup :=
        (NoReupload.buildTasks_names_sublist st.cache docs).nodup hnd
      rcases NoReupload.buildTasks_covers st.cache docs d hd with hm | hm | hm
      · exact NoReupload.runTasks_cache_set addF sumF _ st hok hndt _ hm
      · exact NoReupload.runTasks_cache_set addF sumF _ st hok hndt _ hm
      · have hne : ∀ t ∈ NoReupload.buildTasks st.cache docs,
            t.name ≠ d.name := by
          intro t htm heq
          obtain ⟨dd, hdd, hn, -, hcase⟩ :=
            NoReupload.buildTasks_mem_doc st.cache docs t htm
          have hded : dd = d :=
            List.inj_on_of_nodup_map hnd hdd hd (by rw [← hn, heq])
          subst hded
          rcases hcase with ⟨-, hnone⟩ | ⟨-, h, hsome, hneq⟩
          · rw [hm] at hnone; cases hnone
          · rw [hm] at hsome
            cases hsome
            exact hneq rfl
        rw [NoReupload.runTasks_cache_preserved addF sumF _ st d.name hne]
        exact hm

/-- Claim C4, amended: idempotent re-index (`no_reupload.py`,
`_build_tasks` lines 1-31, `_prepare_nodes` lines 96-99, `update_index`
lines 125-128).  After a failure-free run over documents with distinct
names, a second run over the same unchanged documents builds no tasks, so
it performs zero store adds (and the code contains no delete at all), leaves
all state untouched, and returns 0 — its succeeded count is 0, not the
number of documents classified unchanged. -/
theorem claim_C4 (addF sumF : String → Bool) (st : NoReupload.State)
    (docs : List NoReupload.Doc)
    (hnd : (docs.map NoReupload.Doc.name).Nodup)
    (hnofail : ∀ d ∈ docs, addF d.name = false ∧ sumF d.name = false) :
    (NoReupload.updateIndex addF sumF
      (NoReupload.updateIndex addF sumF st docs).state docs).ops = [] ∧
    (NoReupload.updateIndex addF sumF
      (NoReupload.updateIndex addF sumF st docs).state docs).state =
      (NoReupload.updateIndex addF sumF st docs).state ∧
    (NoReupload.updateIndex addF sumF
      (NoReupload.updateIndex addF sumF st docs).state docs).succeeded = 0 ∧
    (NoReupload.updateIndex addF sumF
      (NoReupload.updateIndex addF sumF st docs).state docs).failed = 0 ∧
    (NoReupload.updateIndex addF sumF
      (NoReupload.updateIndex addF sumF st docs).state docs).ret = 0 := by
  by_cases hdocs : docs = []
  · subst hdocs
    exact ⟨rfl, rfl, rfl, rfl, rfl⟩
  · have hcache :=
      NoReupload.updateIndex_cache addF sumF st docs hnd hnofail
    have ht2 : NoReupload.buildTasks
        (NoReupload.updateIndex addF sumF st docs).state.cache docs = [] :=
      NoReupload.buildTasks_all_cached _ docs hcache
    have hrun2 := NoReupload.updateIndex_no_tasks addF sumF
      (NoReupload.updateIndex addF sumF st docs).state docs hdocs ht2
    rw [hrun2]
    exact ⟨rfl, rfl, rfl, rfl, rfl⟩

/-- Counterexample to C4 as stated: one document, two failure-free runs —
the second run's succeeded count is 0 while the number of documents
classified unchanged (no task built for them) is 1. -/
theorem claim_C4_counterexample :
    (NoReupload.updateIndex (fun _ => false) (fun _ => false)
      (NoReupload.updateIndex (fun _ => false) (fun _ => false)
        ⟨[], [], []⟩ [⟨"a", "h1"⟩]).state [⟨"a", "h1"⟩]).succeeded = 0 ∧
    NoReupload.buildTasks
      (NoReupload.updateIndex (fun _ => false) (fun _ => false)
        ⟨[], [], []⟩ [⟨"a", "h1"⟩]).state.cache [⟨"a", "h1"⟩] = [] ∧
    ([⟨"a", "h1"⟩] : List NoReupload.Doc).length = 1 ∧
    (0 : Nat) ≠ 1 := by decide

/-- Witness for C4: the second failure-free run over one unchanged document
performs no store operation. -/
theorem claim_C4_witness :
    (NoReupload.updateIndex (fun _ => false) (fun _ => false)
      (NoReupload.updateIndex (fun _ => false) (fun _ => false)
        ⟨[], [], []⟩ [⟨"a", "h1"⟩]).state [⟨"a", "h1"⟩]).ops = [] :=
  (claim_C4 (fun _ => false) (fun _ => false) ⟨[], [], []⟩ [⟨"a", "h1"⟩]
    (by decide) (by decide)).1
